import Mathlib

/-!
# Modbus spy: frame splitter and response detector

A shallow embedding of `modbus_data_splitter.cpp` and
`modbus_response_detector.cpp`.  Bytes (`uint8_t`) are `Fin 256`; every wider
machine integer is a natural number with the reduction modulo `2 ^ 16` written
where the source stores into a 16-bit variable.  A null pointer is `none`.
-/

namespace ModbusSpy

set_option maxRecDepth 100000

/-- One `uint8_t`. -/
abbrev Byte := Fin 256

/-- Modelled from the spec: the declaration of `ModbusData` (modbus_data.h) is not
among the sources.  The spec's Observation has an unsigned 16-bit `address` and an
unsigned 16-bit `value`; the functions below reduce modulo `2 ^ 16` when they
store into either field. -/
structure ModbusData where
  address : Nat
  value : Nat
deriving DecidableEq, Repr

/-- Modelled from the spec: the declaration of `ModbusFrame` (modbus_frame.h) is not
among the sources.  A frame is built by `ModbusFrame(address, function, data,
data_length)` and read through `get_address`, `get_function`, `get_data` and
`get_data_length`; `data` is the byte buffer behind the pointer and `data_length`
the length recorded next to it (kept as given, see the spec's "ordered byte
sequence"). -/
structure ModbusFrame where
  address : Byte
  function : Byte
  data : List Byte
  data_length : Nat
deriving DecidableEq, Repr

/-- Outcome of running a piece of the C++ code: a value, a read outside the buffer
behind a data pointer, or a loop that was still running when its fuel ran out. -/
inductive Exec (α : Type) where
  | ok (a : α)
  | out_of_range
  | out_of_fuel
deriving DecidableEq, Repr

/-! ## modbus_data_splitter.cpp -/

/-- The method `ModbusDataSplitter::address_and_function_match`. -/
def address_and_function_match (request response : Option ModbusFrame) : Bool :=
  match request, response with
  | some rq, some rs =>
    if rq.address ≠ rs.address then false
    else if rq.function ≠ rs.function then false
    else true
  | _, _ => false

/-- The emitting loop of `handle_function_3_and_4`:
`for (uint8_t i = 0; i < register_count_requested; ++i)`.  The counter is 8 bits
wide, so `++i` is `(i + 1) % 256`; `split_data` is the vector built so far. -/
def emit_registers (start_address register_count_requested : Nat) (response_data : List Byte) :
    Nat → Nat → List ModbusData → Exec (List ModbusData)
  | 0, _, _ => Exec.out_of_fuel
  | fuel + 1, i, split_data =>
    if i < register_count_requested then
      match response_data[i * 2 + 1]?, response_data[i * 2 + 2]? with
      | some value_high_byte, some value_low_byte =>
        emit_registers start_address register_count_requested response_data fuel ((i + 1) % 256)
          (split_data ++ [{ address := (start_address + i) % 65536,
                            value := (value_high_byte.val <<< 8 ||| value_low_byte.val) % 65536 }])
      | _, _ => Exec.out_of_range
    else Exec.ok split_data

/-- The method `ModbusDataSplitter::handle_function_3_and_4`.  The 8-bit loop counter takes at
most 256 values before it wraps, so 257 steps of fuel separate a loop that ends from
one that never does. -/
def handle_function_3_and_4 (request response : ModbusFrame) : Exec (Option (List ModbusData)) :=
  if request.data_length ≠ 4 then Exec.ok none
  else
    match request.data[0]?, request.data[1]?, request.data[2]?, request.data[3]? with
    | some start_address_high_byte, some start_address_low_byte,
      some register_count_requested_high_byte, some register_count_requested_low_byte =>
      let start_address := (start_address_high_byte.val <<< 8 ||| start_address_low_byte.val) % 65536
      let register_count_requested :=
        (register_count_requested_high_byte.val <<< 8 ||| register_count_requested_low_byte.val) % 65536
      let expected_bytes_in_response := (register_count_requested * 2 + 1) % 65536
      if response.data_length ≠ expected_bytes_in_response then Exec.ok none
      else
        match response.data[0]? with
        | none => Exec.out_of_range
        | some byte_count =>
          if byte_count.val ≠ register_count_requested * 2 then Exec.ok none
          else
            match emit_registers start_address register_count_requested response.data 257 0 [] with
            | Exec.ok split_data => Exec.ok (some split_data)
            | Exec.out_of_range => Exec.out_of_range
            | Exec.out_of_fuel => Exec.out_of_fuel
    | _, _, _, _ => Exec.out_of_range

/-- The comparing loop of `handle_function_6`: `for (uint8_t i = 0; i < 4; ++i)`, with
`remaining = 4 - i`; `false` is the early `return nullptr`. -/
def echo_loop (request_data response_data : List Byte) (i : Nat) : Nat → Exec Bool
  | 0 => Exec.ok true
  | remaining + 1 =>
    match response_data[i]?, request_data[i]? with
    | some response_byte, some request_byte =>
      if response_byte ≠ request_byte then Exec.ok false
      else echo_loop request_data response_data (i + 1) remaining
    | _, _ => Exec.out_of_range

/-- The method `ModbusDataSplitter::handle_function_6`.  The unused local
`data_model_address = 40001 + address` has no effect on the result. -/
def handle_function_6 (request response : ModbusFrame) : Exec (Option (List ModbusData)) :=
  if request.data_length ≠ 4 ∨ response.data_length ≠ 4 then Exec.ok none
  else
    match echo_loop request.data response.data 0 4 with
    | Exec.out_of_range => Exec.out_of_range
    | Exec.out_of_fuel => Exec.out_of_fuel
    | Exec.ok false => Exec.ok none
    | Exec.ok true =>
      match request.data[0]?, request.data[1]?, request.data[2]?, request.data[3]? with
      | some address_high_byte, some address_low_byte, some value_high_byte, some value_low_byte =>
        let address := (address_high_byte.val <<< 8 ||| address_low_byte.val) % 65536
        let value := (value_high_byte.val <<< 8 ||| value_low_byte.val) % 65536
        Exec.ok (some [{ address := address, value := value }])
      | _, _, _, _ => Exec.out_of_range

/-- The method `ModbusDataSplitter::split_request_and_response_data`; `none` inside `Exec.ok` is
the returned `nullptr`. -/
def split_request_and_response_data (request response : Option ModbusFrame) :
    Exec (Option (List ModbusData)) :=
  if address_and_function_match request response = false then Exec.ok none
  else
    match request, response with
    | some rq, some rs =>
      if rq.function.val = 3 ∨ rq.function.val = 4 then handle_function_3_and_4 rq rs
      else if rq.function.val = 6 then handle_function_6 rq rs
      else Exec.ok none
    | _, _ => Exec.ok none

/-! ## modbus_response_detector.cpp -/

/-- One bit step of the CRC: shift right, and exclusive-or the reflected polynomial
`0xA001` in when the bit shifted out was set. -/
def crc16_bit (crc : Nat) : Nat :=
  if crc &&& 1 ≠ 0 then (crc >>> 1) ^^^ 0xA001 else crc >>> 1

/-- One byte step of the CRC: exclusive-or the byte into the low half, then 8 bit steps. -/
def crc16_byte (crc : Nat) (b : Byte) : Nat :=
  crc16_bit (crc16_bit (crc16_bit (crc16_bit (crc16_bit (crc16_bit (crc16_bit (crc16_bit
    (crc ^^^ b.val))))))))

/-- Modelled from the spec: `crc16` comes from a helper header that is not among the
sources.  The spec fixes it as CRC-16/Modbus: reflected polynomial `0xA001`, seed
`0xFFFF`, no final exclusive-or, over the whole byte sequence. -/
def crc16 (data : List Byte) : Nat :=
  data.foldl crc16_byte 0xFFFF

/-- Modelled from the spec: the class declaration (modbus_response_detector.h), the
`IUartInterface` behind `uart_interface_` and the ESP-IDF clock are not among the
sources.  The two members are as the source names them.  `clock` is the microsecond
clock read by `esp_timer_get_time`; `uart_rx` is the byte source: the bytes not yet
read, in line order, each with the clock value at which it arrives.  Time passes in
`esp_rom_delay_us` only: reads, comparisons and assignments take none. -/
structure ModbusResponseDetector where
  max_time_between_bytes_in_us_ : Nat
  time_last_byte_received_ : Nat
  clock : Nat
  uart_rx : List (Nat × Byte)
deriving DecidableEq, Repr

/-- The call `esp_rom_delay_us(us)`: busy-wait; the clock advances by `us`. -/
def esp_rom_delay_us (us : Nat) (d : ModbusResponseDetector) : ModbusResponseDetector :=
  { d with clock := d.clock + us }

/-- The call `esp_timer_get_time()`: the microsecond clock. -/
def esp_timer_get_time (d : ModbusResponseDetector) : Nat := d.clock

/-- The call `pdTICKS_TO_MS(xTaskGetTickCount())`, with a 1 kHz tick. -/
def tick_count_ms (d : ModbusResponseDetector) : Nat := d.clock / 1000

/-- The call `uart_interface_->available()`: how many bytes at the head of the line have arrived. -/
def available (d : ModbusResponseDetector) : Nat :=
  (d.uart_rx.takeWhile (fun p => decide (p.1 ≤ d.clock))).length

/-- The call `uart_interface_->read_byte(byte)`: takes the next byte when one has arrived. -/
def read_byte (d : ModbusResponseDetector) : Option Byte × ModbusResponseDetector :=
  match d.uart_rx with
  | [] => (none, d)
  | (t, b) :: rest => if t ≤ d.clock then (some b, { d with uart_rx := rest }) else (none, d)

/-- The waiting loop of `read_next_byte`:
`do { delay 100 us; waiting_too_long = ... } while (available() == 0 && !waiting_too_long)`. -/
def wait_for_next_byte : Nat → ModbusResponseDetector → ModbusResponseDetector
  | 0, d => d
  | fuel + 1, d =>
    let d := esp_rom_delay_us 100 d
    let waiting_too_long : Bool :=
      decide (esp_timer_get_time d - d.time_last_byte_received_ > d.max_time_between_bytes_in_us_)
    if available d = 0 ∧ waiting_too_long = false then wait_for_next_byte fuel d else d

/-- Steps that always suffice for the waiting loop: each step advances the clock by 100
and the loop stops once the clock is more than the gap past the last byte. -/
def wait_fuel (d : ModbusResponseDetector) : Nat :=
  (d.time_last_byte_received_ + d.max_time_between_bytes_in_us_ - d.clock) / 100 + 1

/-- The method `ModbusResponseDetector::read_next_byte`; `none` is the returned `false`. -/
def read_next_byte (d : ModbusResponseDetector) : Option Byte × ModbusResponseDetector :=
  if available d = 0 then
    let d := wait_for_next_byte (wait_fuel d) d
    if available d = 0 then (none, d)
    else
      match read_byte d with
      | (some b, d) => (some b, { d with time_last_byte_received_ := esp_timer_get_time d })
      | (none, d) => (none, d)
  else
    match read_byte d with
    | (some b, d) => (some b, { d with time_last_byte_received_ := esp_timer_get_time d })
    | (none, d) => (none, d)

/-- The first loop of `detect_response`: wait for a byte, 50 us at a time, giving up
(`false`) once `MAX_TIME_BETWEEN_REQUEST_AND_RESPONSE_IN_MS` have passed. -/
def wait_for_response (MAX_TIME_BETWEEN_REQUEST_AND_RESPONSE_IN_MS time_before_waiting_for_response : Nat) :
    Nat → ModbusResponseDetector → Bool × ModbusResponseDetector
  | 0, d => (false, d)
  | fuel + 1, d =>
    if available d = 0 then
      let d := esp_rom_delay_us 50 d
      if tick_count_ms d - time_before_waiting_for_response
          ≥ MAX_TIME_BETWEEN_REQUEST_AND_RESPONSE_IN_MS then (false, d)
      else wait_for_response MAX_TIME_BETWEEN_REQUEST_AND_RESPONSE_IN_MS
        time_before_waiting_for_response fuel d
    else (true, d)

/-- The data loops of `detect_response`: `for (uint8_t i = 0; i < count; ++i)` reading
one byte per step into `crc_data`; `none` is the early `return nullptr`. -/
def read_data_bytes : Nat → ModbusResponseDetector → Option (List Byte) × ModbusResponseDetector
  | 0, d => (some [], d)
  | count + 1, d =>
    match read_next_byte d with
    | (none, d) => (none, d)
    | (some b, d) =>
      match read_data_bytes count d with
      | (none, d) => (none, d)
      | (some bs, d) => (some (b :: bs), d)

/-- The tail shared by both branches of `detect_response`: read the CRC low byte and
high byte, compare with `crc16(crc_data)`, build the frame. -/
def read_crc_and_check (address function : Byte) (crc_data data : List Byte) (data_length : Nat)
    (d : ModbusResponseDetector) : Option ModbusFrame × ModbusResponseDetector :=
  match read_next_byte d with
  | (none, d) => (none, d)
  | (some crc_low_byte, d) =>
    match read_next_byte d with
    | (none, d) => (none, d)
    | (some crc_high_byte, d) =>
      let calculated_crc := crc16 crc_data % 65536
      let received_crc := (crc_low_byte.val ||| (crc_high_byte.val <<< 8)) % 65536
      if calculated_crc ≠ received_crc then (none, d)
      else (some { address := address, function := function, data := data,
                   data_length := data_length }, d)

/-- The method `ModbusResponseDetector::detect_response`; `none` is the returned `nullptr`.
`MAX_TIME_BETWEEN_REQUEST_AND_RESPONSE_IN_MS` is a constant of the missing header. -/
def detect_response (MAX_TIME_BETWEEN_REQUEST_AND_RESPONSE_IN_MS : Nat)
    (d : ModbusResponseDetector) : Option ModbusFrame × ModbusResponseDetector :=
  let time_before_waiting_for_response := tick_count_ms d
  match wait_for_response MAX_TIME_BETWEEN_REQUEST_AND_RESPONSE_IN_MS
      time_before_waiting_for_response (20 * (MAX_TIME_BETWEEN_REQUEST_AND_RESPONSE_IN_MS + 1)) d with
  | (false, d) => (none, d)
  | (true, d) =>
    let d := { d with time_last_byte_received_ := esp_timer_get_time d }
    match read_next_byte d with
    | (none, d) => (none, d)
    | (some address, d) =>
      match read_next_byte d with
      | (none, d) => (none, d)
      | (some function, d) =>
        if 1 ≤ function.val ∧ function.val ≤ 4 then
          match read_next_byte d with
          | (none, d) => (none, d)
          | (some byte_count, d) =>
            match read_data_bytes byte_count.val d with
            | (none, d) => (none, d)
            | (some bytes, d) =>
              read_crc_and_check address function (address :: function :: byte_count :: bytes)
                (byte_count :: bytes) (byte_count.val + 1) d
        else if function.val = 5 ∨ function.val = 6 ∨ function.val = 15 ∨ function.val = 16 then
          match read_data_bytes 4 d with
          | (none, d) => (none, d)
          | (some bytes, d) =>
            read_crc_and_check address function (address :: function :: bytes) bytes 4 d
        else (none, d)

/-! ### The constructor's floating-point arithmetic

`float` is IEEE 754 binary32 with round-to-nearest, ties-to-even; a positive `float` is
kept as an exact fraction `(m, p)`, meaning `m / p`, with `p` a power of two. -/

/-- The integer nearest to `n / d`, ties going to the even one. -/
def round_half_even (n d : Nat) : Nat :=
  if 2 * (n % d) < d then n / d
  else if d < 2 * (n % d) then n / d + 1
  else if (n / d) % 2 = 0 then n / d else n / d + 1

/-- The binary exponent `⌊log2 q⌋` of `q ≥ 1`, by halving; `fuel` bounds the halvings. -/
def binary_exponent : Nat → Nat → Nat
  | 0, _ => 0
  | fuel + 1, q => if q < 2 then 0 else binary_exponent fuel (q / 2) + 1

/-- The `float` nearest to the quotient `n / d` (for `n / d ≥ 1`, below the overflow
threshold): with `2 ^ e ≤ n / d < 2 ^ (e + 1)` the quotient is rounded to a multiple of
`2 ^ (e - 23)`, which leaves a 24-bit significand. -/
def to_float32 (n d : Nat) : Nat × Nat :=
  let e := binary_exponent (n / d) (n / d)
  if e ≤ 23 then (round_half_even (n * 2 ^ (23 - e)) d, 2 ^ (23 - e))
  else (round_half_even n (d * 2 ^ (e - 23)) * 2 ^ (e - 23), 1)

/-- The `baud_rate <= 19200` branch of the constructor:
`us_per_bit = 1000000.0f / baud_rate` and `us_per_byte = bits_per_byte * us_per_bit` are
`float` operations; `1.5 * us_per_byte` is a `double` product, exact because the
significand of the factor has 24 bits; `round` rounds half away from zero; the cast to
`uint16_t` is taken modulo `2 ^ 16` (C++ leaves it undefined when the value does not
fit, and no 16-bit result can then be the value). -/
def float_gap (baud_rate : Nat) : Nat :=
  let us_per_bit := to_float32 1000000 baud_rate
  let us_per_byte := to_float32 (11 * us_per_bit.1) us_per_bit.2
  ((3 * us_per_byte.1 + us_per_byte.2) / (2 * us_per_byte.2)) % 65536

/-- The value the constructor `ModbusResponseDetector::ModbusResponseDetector` stores
in `max_time_between_bytes_in_us_` for the baud rate of its UART;
`MIN_TIMEOUT_BETWEEN_BYTES_IN_US` is a constant of the missing header. -/
def constructor_max_time_between_bytes_in_us (MIN_TIMEOUT_BETWEEN_BYTES_IN_US baud_rate : Nat) :
    Nat :=
  if baud_rate ≤ 19200 then float_gap baud_rate else MIN_TIMEOUT_BETWEEN_BYTES_IN_US

/-- The spec's gap `round(1.5 * 11 * 1000000 / b)`, halves rounded up. -/
def rounded_gap (b : Nat) : Nat := (2 * 16500000 + b) / (2 * b)

/-- The value of `float_gap b` worked out with the exponent `e` of `1000000 / b` given
rather than searched for; `none` when `e` is not that exponent. -/
def gap_with_exponent (e b : Nat) : Option Nat :=
  match b with
  | 0 => none
  | b' + 1 =>
    bif Nat.ble e 20 && Nat.ble (2 ^ e * (b' + 1)) 1000000
        && Nat.blt 1000000 (2 ^ (e + 1) * (b' + 1)) then
      match 11 * round_half_even (1000000 * 2 ^ (23 - e)) (b' + 1) with
      | 0 => none
      | t' + 1 =>
        bif Nat.ble (2 ^ (e + 3) * 2 ^ (23 - e)) (t' + 1)
            && Nat.blt (t' + 1) (2 ^ (e + 4) * 2 ^ (23 - e)) then
          some (((3 * round_half_even ((t' + 1) * 2 ^ (20 - e)) (2 ^ (23 - e))
            + 2 ^ (20 - e)) / (2 * 2 ^ (20 - e))) % 65536)
        else bif Nat.ble (2 ^ (e + 4) * 2 ^ (23 - e)) (t' + 1)
            && Nat.blt (t' + 1) (2 ^ (e + 5) * 2 ^ (23 - e)) && Nat.ble e 19 then
          some (((3 * round_half_even ((t' + 1) * 2 ^ (19 - e)) (2 ^ (23 - e))
            + 2 ^ (19 - e)) / (2 * 2 ^ (19 - e))) % 65536)
        else none
    else none

/-- Whether, for each of the `n` baud rates from `lo` on, `float_gap` is `rounded_gap`,
less one at 960, 4800 and 10560; `e` is the exponent of `1000000 / b` on that range. -/
def gaps_agree (e lo : Nat) : Nat → Bool
  | 0 => true
  | n + 1 =>
    (match gap_with_exponent e (lo + n) with
      | some g => Nat.beq (g + (bif Nat.beq (lo + n) 960 || Nat.beq (lo + n) 4800
          || Nat.beq (lo + n) 10560 then 1 else 0)) (rounded_gap (lo + n))
      | none => false)
    && gaps_agree e lo n

/-! ## Vocabulary of the statements -/

/-- The observation the emitting loop builds for index `i`. -/
def register_at (start_address : Nat) (response_data : List Byte) (i : Nat) : ModbusData :=
  { address := (start_address + i) % 65536,
    value := (response_data.getD (1 + 2 * i) 0).val * 256 + (response_data.getD (2 + 2 * i) 0).val }

/-- The register count of a function 3/4 request: the big-endian 16-bit value of
request bytes 2 and 3. -/
def register_count_of (rq : ModbusFrame) : Nat :=
  (rq.data.getD 2 0).val * 256 + (rq.data.getD 3 0).val

/-- The clock value at which `read_next_byte`, called at clock `c`, hands over a byte
that arrives at `t`: at once when it has arrived, else at the first 100 us poll at or
after `t`. -/
def read_time (c t : Nat) : Nat :=
  if t ≤ c then c else c + 100 * ((t - c + 99) / 100)

/-- The last poll of `read_next_byte` when it is called at clock `c` with the previous
byte stamped `last`: the first 100 us poll that is more than `gap` past `last`. -/
def last_poll (gap last c : Nat) : Nat :=
  c + 100 * ((last + gap - c) / 100 + 1)

/-- Whether every byte of `wire` is handed over by `read_next_byte` when reading starts
at clock `c` (the previous byte stamped `c` as well): each byte arrives no later than
the last poll of its read. -/
def arrives_in_time (gap : Nat) : Nat → List (Nat × Byte) → Bool
  | _, [] => true
  | c, (t, _) :: rest => decide (t ≤ last_poll gap c c) && arrives_in_time gap (read_time c t) rest

/-- The clock after the bytes of `wire` have been read one after the other from clock `c`. -/
def time_after (c : Nat) : List (Nat × Byte) → Nat
  | [] => c
  | (t, _) :: rest => time_after (read_time c t) rest

/-- The clock at which the first loop of `detect_response`, entered at clock `c`, sees a
first byte that arrives at `t`: at once, or at the first 50 us poll at or after `t`. -/
def response_start (c t : Nat) : Nat :=
  if t ≤ c then c else c + 50 * ((t - c + 49) / 50)

/-- Whether a stream is delivered without a timeout to a detection entered at clock `c`:
the first byte is seen before `MAX` milliseconds are counted, and every byte arrives no
later than the last poll of its read. -/
def delivered_in_time (MAX gap c : Nat) : List (Nat × Byte) → Bool
  | [] => true
  | (t, b) :: rest =>
    decide (t ≤ c ∨ response_start c t / 1000 - c / 1000 < MAX)
      && arrives_in_time gap (response_start c t) ((t, b) :: rest)

/-- Whether a read that starts at clock `c` (the previous byte stamped `c` as well) times
out on the line `late`: nothing is left on it, or its next byte arrives after the last
poll of the read. -/
def stalled (gap c : Nat) : List (Nat × Byte) → Bool
  | [] => true
  | (t, _) :: _ => decide (last_poll gap c c < t)

/-- The CRC comparison at the end of a frame, on the bytes that follow the payload: the
frame when there are two of them and they carry `crc16(crc_data)` low byte first. -/
def checked_frame (address function : Byte) (crc_data data : List Byte) (data_length : Nat) :
    List Byte → Option ModbusFrame
  | crc_low_byte :: crc_high_byte :: _ =>
    if crc16 crc_data = crc_low_byte.val + 256 * crc_high_byte.val
    then some ⟨address, function, data, data_length⟩ else none
  | _ => none

/-- The frame that the layout of `detect_response` finds at the head of a byte sequence
that is followed by silence: `none` when the sequence stops short of the frame, the
function code is not supported or the CRC does not match. -/
def frame_of_wire : List Byte → Option ModbusFrame
  | address :: function :: rest =>
    if 1 ≤ function.val ∧ function.val ≤ 4 then
      match rest with
      | byte_count :: rest =>
        if byte_count.val ≤ rest.length then
          checked_frame address function
            (address :: function :: byte_count :: rest.take byte_count.val)
            (byte_count :: rest.take byte_count.val) (byte_count.val + 1)
            (rest.drop byte_count.val)
        else none
      | [] => none
    else if function.val = 5 ∨ function.val = 6 ∨ function.val = 15 ∨ function.val = 16 then
      if 4 ≤ rest.length then
        checked_frame address function (address :: function :: rest.take 4) (rest.take 4) 4
          (rest.drop 4)
      else none
    else none
  | _ => none

/-- How many bytes `detect_response` reads in all for a frame that starts with the bytes
`bs`: address and function, then byte count, data and CRC for functions 1 to 4, or four
payload bytes and CRC for functions 5, 6, 15 and 16. -/
def bytes_needed : List Byte → Nat
  | _ :: function :: rest =>
    if 1 ≤ function.val ∧ function.val ≤ 4 then
      match rest with
      | byte_count :: _ => byte_count.val + 5
      | [] => 3
    else if function.val = 5 ∨ function.val = 6 ∨ function.val = 15 ∨ function.val = 16 then 8
    else 2
  | _ => 2

/-- The byte `b` with bit `k` inverted. -/
def flip_bit (k : Nat) (b : Byte) : Byte := Fin.ofNat (b.val ^^^ (1 <<< k))

/-- The byte sequence `bs` with bit `k` of the byte at position `i` inverted. -/
def flip_bit_at (i k : Nat) : List Byte → List Byte
  | [] => []
  | b :: bs =>
    match i with
    | 0 => flip_bit k b :: bs
    | i + 1 => b :: flip_bit_at i k bs

/-- The clock after a detection entered at clock `c` has read all of `wire`. -/
def end_of_wire (c : Nat) : List (Nat × Byte) → Nat
  | [] => c
  | (t, b) :: rest => time_after (response_start c t) ((t, b) :: rest)

/-- The byte sequence `bs` followed by its CRC-16/Modbus, low byte first. -/
def with_crc (bs : List Byte) : List Byte :=
  bs ++ [Fin.ofNat (crc16 bs % 256), Fin.ofNat (crc16 bs / 256)]

/-- Two detections and a split, composed: `detect_response` for the request,
`detect_response` again on what the first call left of the byte source for the
response, then `split_request_and_response_data` on the two results. -/
def detect_pair_and_split (MAX_TIME_BETWEEN_REQUEST_AND_RESPONSE_IN_MS : Nat)
    (d : ModbusResponseDetector) : Exec (Option (List ModbusData)) :=
  let request := detect_response MAX_TIME_BETWEEN_REQUEST_AND_RESPONSE_IN_MS d
  let response := detect_response MAX_TIME_BETWEEN_REQUEST_AND_RESPONSE_IN_MS request.2
  split_request_and_response_data request.1 response.1

/-- The clock at which the first loop of `detect_response`, entered or continued at clock
`c` with `t0` milliseconds on the tick counter at entry, gives up when no byte shows:
the first 50 us poll at which `MAX` milliseconds have been counted. -/
def give_up_time (MAX t0 c : Nat) : Nat :=
  if 1000 * (t0 + MAX) ≤ c + 50 then c + 50
  else c + 50 * ((1000 * (t0 + MAX) - c + 49) / 50)

/-! ## Arithmetic of the byte combinations -/

theorem shl8_or (hi lo : Byte) : hi.val <<< 8 ||| lo.val = hi.val * 256 + lo.val := by
  have h := Nat.mul_add_lt_is_or (i := 8) lo.isLt hi.val
  rw [Nat.shiftLeft_eq, ← Nat.mul_comm, ← h]

theorem shl8_or_mod (hi lo : Byte) :
    (hi.val <<< 8 ||| lo.val) % 65536 = hi.val * 256 + lo.val := by
  rw [shl8_or]; omega

theorem emit_registers_spec (start rc : Nat) (data : List Byte) (hrc : rc ≤ 255)
    (hlen : 2 * rc + 1 ≤ data.length) :
    ∀ (k fuel i : Nat) (acc : List ModbusData), i + k = rc → k < fuel →
      emit_registers start rc data fuel i acc
        = Exec.ok (acc ++ (List.range' i k).map (register_at start data)) := by
  intro k
  induction k with
  | zero =>
    intro fuel i acc hik hf
    obtain ⟨f, rfl⟩ : ∃ f, fuel = f + 1 := ⟨fuel - 1, by omega⟩
    have : ¬ i < rc := by omega
    simp [emit_registers, this]
  | succ k ih =>
    intro fuel i acc hik hf
    obtain ⟨f, rfl⟩ : ∃ f, fuel = f + 1 := ⟨fuel - 1, by omega⟩
    have hi : i < rc := by omega
    have h1 : i * 2 + 1 < data.length := by omega
    have h2 : i * 2 + 2 < data.length := by omega
    have hw : (i + 1) % 256 = i + 1 := by omega
    have e1 : (1 + 2 * i) = i * 2 + 1 := by omega
    have e2 : (2 + 2 * i) = i * 2 + 2 := by omega
    rw [emit_registers]
    simp only [hi, if_true, List.getElem?_eq_getElem h1, List.getElem?_eq_getElem h2, hw]
    rw [ih f (i + 1) _ (by omega) (by omega)]
    simp [List.range'_succ, register_at, shl8_or_mod, e1, e2, List.getD_eq_getElem?_getD,
      List.getElem?_eq_getElem h1, List.getElem?_eq_getElem h2]

theorem match_of_eq (rq rs : ModbusFrame) (ha : rq.address = rs.address)
    (hf : rq.function = rs.function) :
    address_and_function_match (some rq) (some rs) = true := by
  simp [address_and_function_match, ha, hf]

theorem split_eq_handle_function_3_and_4 (rq rs : ModbusFrame) (ha : rq.address = rs.address)
    (hf : rq.function = rs.function) (h34 : rq.function.val = 3 ∨ rq.function.val = 4) :
    split_request_and_response_data (some rq) (some rs) = handle_function_3_and_4 rq rs := by
  unfold split_request_and_response_data
  rw [match_of_eq rq rs ha hf]
  simp only [Bool.true_eq_false, if_false]
  rw [if_pos h34]

theorem split_eq_handle_function_6 (rq rs : ModbusFrame) (ha : rq.address = rs.address)
    (hf : rq.function = rs.function) (h6 : rq.function.val = 6) :
    split_request_and_response_data (some rq) (some rs) = handle_function_6 rq rs := by
  have h34 : ¬ (rq.function.val = 3 ∨ rq.function.val = 4) := by omega
  unfold split_request_and_response_data
  rw [match_of_eq rq rs ha hf]
  simp only [Bool.true_eq_false, if_false]
  rw [if_neg h34, if_pos h6]

theorem handle_function_3_and_4_accepts (rq rs : ModbusFrame) (sh sl nh nl : Byte)
    (hrq : rq.data = [sh, sl, nh, nl]) (hrql : rq.data_length = 4)
    (hlen : rs.data.length = 2 * (nh.val * 256 + nl.val) + 1)
    (hrsl : rs.data_length = rs.data.length)
    (hbc : (rs.data.getD 0 0).val = 2 * (nh.val * 256 + nl.val)) :
    handle_function_3_and_4 rq rs
      = Exec.ok (some ((List.range (nh.val * 256 + nl.val)).map
          (register_at (sh.val * 256 + sl.val) rs.data))) := by
  have hb := (rs.data.getD 0 0).isLt
  have hn : nh.val * 256 + nl.val ≤ 127 := by omega
  have h0 : 0 < rs.data.length := by omega
  have hg : rs.data[0]? = some (rs.data.getD 0 0) := by
    simp [List.getD_eq_getElem?_getD, List.getElem?_eq_getElem h0]
  unfold handle_function_3_and_4
  simp only [hrql, hrq, ne_eq, not_true_eq_false, if_false, List.getElem?_cons_zero,
    List.getElem?_cons_succ, shl8_or_mod, hrsl, hg]
  have e1 : ((nh.val * 256 + nl.val) * 2 + 1) % 65536 = 2 * (nh.val * 256 + nl.val) + 1 := by omega
  have e2 : (rs.data.getD 0 0).val = (nh.val * 256 + nl.val) * 2 := by omega
  rw [e1]
  simp only [hlen, e2, not_true_eq_false, if_false]
  rw [emit_registers_spec _ _ _ (by omega) (by omega) (nh.val * 256 + nl.val) 257 0 [] (by omega)
    (by omega)]
  simp [List.range_eq_range']

/-- C1 (amended): equal address, equal function 3 or 4, request payload
`[start_hi, start_lo, n_hi, n_lo]`, response payload of length `2 * n + 1` whose first
byte is `2 * n`: the splitter returns exactly the `n` observations, in order
`i = 0 .. n - 1`, observation `i` having address `(start + i) mod 65536` and value
`response[1 + 2 i] * 256 + response[2 + 2 i]`. -/
theorem split_function_3_and_4_observations (rq rs : ModbusFrame) (sh sl nh nl : Byte)
    (ha : rq.address = rs.address) (hf : rq.function = rs.function)
    (h34 : rq.function.val = 3 ∨ rq.function.val = 4)
    (hrq : rq.data = [sh, sl, nh, nl]) (hrql : rq.data_length = 4)
    (hlen : rs.data.length = 2 * (nh.val * 256 + nl.val) + 1)
    (hrsl : rs.data_length = rs.data.length)
    (hbc : (rs.data.getD 0 0).val = 2 * (nh.val * 256 + nl.val)) :
    split_request_and_response_data (some rq) (some rs)
      = Exec.ok (some ((List.range (nh.val * 256 + nl.val)).map (fun i =>
          { address := (sh.val * 256 + sl.val + i) % 65536,
            value := (rs.data.getD (1 + 2 * i) 0).val * 256 + (rs.data.getD (2 + 2 * i) 0).val }))) := by
  rw [split_eq_handle_function_3_and_4 rq rs ha hf h34]
  rw [handle_function_3_and_4_accepts rq rs sh sl nh nl hrq hrql hlen hrsl hbc]
  rfl

/-- Witness of C1: start 0, two registers, response payload `[4, 0, 1, 0, 2]`. -/
theorem split_function_3_and_4_observations_witness :
    split_request_and_response_data (some ⟨1, 3, [0, 0, 0, 2], 4⟩) (some ⟨1, 3, [4, 0, 1, 0, 2], 5⟩)
      = Exec.ok (some [⟨0, 1⟩, ⟨1, 2⟩]) :=
  split_function_3_and_4_observations ⟨1, 3, [0, 0, 0, 2], 4⟩ ⟨1, 3, [4, 0, 1, 0, 2], 5⟩ 0 0 0 2
    rfl rfl (Or.inl rfl) rfl rfl rfl rfl rfl

/-- C1 as stated fails where the block crosses the top of the 16-bit address space:
start `0xFFFF` with two registers gives addresses `0xFFFF` and `0`, not `0x10000`. -/
theorem split_function_3_and_4_start_plus_i_counterexample :
    split_request_and_response_data (some ⟨1, 3, [0xFF, 0xFF, 0, 2], 4⟩)
        (some ⟨1, 3, [4, 0, 1, 0, 2], 5⟩)
      = Exec.ok (some [⟨0xFFFF, 1⟩, ⟨0, 2⟩])
    ∧ split_request_and_response_data (some ⟨1, 3, [0xFF, 0xFF, 0, 2], 4⟩)
        (some ⟨1, 3, [4, 0, 1, 0, 2], 5⟩)
      ≠ Exec.ok (some [⟨0xFFFF + 0, 0 * 256 + 1⟩, ⟨0xFFFF + 1, 0 * 256 + 2⟩]) := by
  constructor <;> decide

theorem echo_loop_same (data : List Byte) :
    ∀ (n i : Nat), i + n ≤ data.length → echo_loop data data i n = Exec.ok true := by
  intro n
  induction n with
  | zero => intro i _; rfl
  | succ n ih =>
    intro i h
    have hi : i < data.length := by omega
    rw [echo_loop]
    simp only [List.getElem?_eq_getElem hi, ne_eq, not_true_eq_false, if_false]
    exact ih (i + 1) (by omega)

theorem echo_loop_differs (rq rs : List Byte) (hq : 4 ≤ rq.length) (hs : 4 ≤ rs.length)
    (j : Nat) (hj : j < 4) (hd : rs[j]? ≠ rq[j]?) :
    ∀ (n i : Nat), i + n = 4 → i ≤ j → echo_loop rq rs i n = Exec.ok false := by
  intro n
  induction n with
  | zero => intro i h1 h2; omega
  | succ n ih =>
    intro i h1 h2
    have hiq : i < rq.length := by omega
    have his : i < rs.length := by omega
    rw [echo_loop]
    simp only [List.getElem?_eq_getElem hiq, List.getElem?_eq_getElem his]
    by_cases hb : rs[i] = rq[i]
    · have hne : i ≠ j := by
        rintro rfl
        apply hd
        simp [List.getElem?_eq_getElem hiq, List.getElem?_eq_getElem his, hb]
      simp only [hb, ne_eq, not_true_eq_false, if_false]
      exact ih (i + 1) (by omega) (by omega)
    · simp [hb]

/-- C2: equal address and function 6, both recorded lengths those of the payloads.
Identical 4-byte payloads `[a_hi, a_lo, v_hi, v_lo]` give exactly one observation with
the raw address `a_hi * 256 + a_lo` and value `v_hi * 256 + v_lo`; a payload length
other than 4, or a response byte that differs from the request byte at its position,
gives none. -/
theorem split_function_6 (rq rs : ModbusFrame)
    (ha : rq.address = rs.address) (hf : rq.function = rs.function)
    (h6 : rq.function.val = 6)
    (hrql : rq.data_length = rq.data.length) (hrsl : rs.data_length = rs.data.length) :
    (∀ ah al vh vl : Byte, rq.data = [ah, al, vh, vl] → rs.data = [ah, al, vh, vl] →
        split_request_and_response_data (some rq) (some rs)
          = Exec.ok (some [{ address := ah.val * 256 + al.val, value := vh.val * 256 + vl.val }]))
    ∧ ((rq.data.length ≠ 4 ∨ rs.data.length ≠ 4 ∨ ∃ i, i < 4 ∧ rs.data[i]? ≠ rq.data[i]?) →
        split_request_and_response_data (some rq) (some rs) = Exec.ok none) := by
  rw [split_eq_handle_function_6 rq rs ha hf h6]
  constructor
  · intro ah al vh vl hq hs
    unfold handle_function_6
    have hl : ¬ (rq.data_length ≠ 4 ∨ rs.data_length ≠ 4) := by
      rw [hrql, hrsl, hq, hs]; simp
    simp only [hl, if_false]
    rw [hs, ← hq, echo_loop_same rq.data 4 0 (by rw [hq]; simp)]
    simp [hq, shl8_or_mod]
  · intro h
    unfold handle_function_6
    by_cases hl : rq.data_length ≠ 4 ∨ rs.data_length ≠ 4
    · simp only [hl, if_true]
    · simp only [hl, if_false]
      rw [hrql, hrsl] at hl
      have hq4 : rq.data.length = 4 := by omega
      have hs4 : rs.data.length = 4 := by omega
      obtain ⟨i, hi, hd⟩ : ∃ i, i < 4 ∧ rs.data[i]? ≠ rq.data[i]? := by
        rcases h with h | h | h
        · exact absurd hq4 h
        · exact absurd hs4 h
        · exact h
      rw [echo_loop_differs rq.data rs.data (by omega) (by omega) i hi hd 4 0 rfl (by omega)]

/-- Witness of C2: payload `[0x00, 0x05, 0x00, 0x64]` echoed gives `{5, 100}`, and a
response that differs in its last byte gives none. -/
theorem split_function_6_witness :
    split_request_and_response_data (some ⟨1, 6, [0x00, 0x05, 0x00, 0x64], 4⟩)
        (some ⟨1, 6, [0x00, 0x05, 0x00, 0x64], 4⟩) = Exec.ok (some [⟨5, 100⟩])
    ∧ split_request_and_response_data (some ⟨1, 6, [0x00, 0x05, 0x00, 0x64], 4⟩)
        (some ⟨1, 6, [0x00, 0x05, 0x00, 0x65], 4⟩) = Exec.ok none :=
  ⟨(split_function_6 ⟨1, 6, [0x00, 0x05, 0x00, 0x64], 4⟩ ⟨1, 6, [0x00, 0x05, 0x00, 0x64], 4⟩
      rfl rfl rfl rfl rfl).1 0x00 0x05 0x00 0x64 rfl rfl,
   (split_function_6 ⟨1, 6, [0x00, 0x05, 0x00, 0x64], 4⟩ ⟨1, 6, [0x00, 0x05, 0x00, 0x65], 4⟩
      rfl rfl rfl rfl rfl).2 (Or.inr (Or.inr ⟨3, by decide, by decide⟩))⟩

/-- C3: an absent request, an absent response, differing addresses or differing
function codes give none, whatever the payloads hold. -/
theorem split_rejects_unmatched (request response : Option ModbusFrame)
    (h : request = none ∨ response = none ∨
      ∃ rq rs, request = some rq ∧ response = some rs ∧
        (rq.address ≠ rs.address ∨ rq.function ≠ rs.function)) :
    split_request_and_response_data request response = Exec.ok none := by
  have hm : address_and_function_match request response = false := by
    rcases h with h | h | ⟨rq, rs, h1, h2, h3⟩
    · subst h; simp [address_and_function_match]
    · subst h; cases request <;> simp [address_and_function_match]
    · subst h1 h2
      rcases h3 with h3 | h3
      · simp [address_and_function_match, h3]
      · simp [address_and_function_match, h3]
  simp [split_request_and_response_data, hm]

/-- Witness of C3: request function 3, response function 4, payloads that would
otherwise match. -/
theorem split_rejects_unmatched_witness :
    split_request_and_response_data (some ⟨1, 3, [0, 0, 0, 2], 4⟩)
      (some ⟨1, 4, [4, 0, 1, 0, 2], 5⟩) = Exec.ok none :=
  split_rejects_unmatched _ _ (Or.inr (Or.inr ⟨⟨1, 3, [0, 0, 0, 2], 4⟩, ⟨1, 4, [4, 0, 1, 0, 2], 5⟩,
    rfl, rfl, Or.inr (by decide)⟩))

theorem list_of_length_four (l : List Byte) (h : l.length = 4) :
    ∃ a b c d, l = [a, b, c, d] := by
  match l, h with
  | [a, b, c, d], _ => exact ⟨a, b, c, d, rfl⟩

theorem handle_function_3_and_4_rejects (rq rs : ModbusFrame)
    (hrql : rq.data_length = rq.data.length) (hrsl : rs.data_length = rs.data.length)
    (h : ¬ (rq.data.length = 4 ∧ rs.data.length = register_count_of rq * 2 + 1
          ∧ (rs.data.getD 0 0).val = register_count_of rq * 2)) :
    handle_function_3_and_4 rq rs = Exec.ok none := by
  unfold handle_function_3_and_4
  by_cases h4 : rq.data.length = 4
  · obtain ⟨a, b, c, d, hq⟩ := list_of_length_four rq.data h4
    have hrc : register_count_of rq = c.val * 256 + d.val := by
      simp [register_count_of, hq]
    rw [hrc] at h
    have hc := c.isLt
    have hd := d.isLt
    simp only [hrql, hq, List.length_cons, List.length_nil, ne_eq, not_true_eq_false, if_false,
      List.getElem?_cons_zero, List.getElem?_cons_succ, shl8_or_mod, hrsl]
    by_cases hl : rs.data.length = ((c.val * 256 + d.val) * 2 + 1) % 65536
    · have h0 : 0 < rs.data.length := by omega
      have hb := (rs.data.getD 0 0).isLt
      have hg : rs.data[0]? = some (rs.data.getD 0 0) := by
        simp [List.getD_eq_getElem?_getD, List.getElem?_eq_getElem h0]
      simp only [hl, not_true_eq_false, if_false]
      rw [hg]
      by_cases hbc : (rs.data.getD 0 0).val = (c.val * 256 + d.val) * 2
      · exfalso
        apply h
        refine ⟨h4, ?_, hbc⟩
        omega
      · simp only [hbc, not_false_eq_true, if_true]
    · simp only [hl, not_false_eq_true, if_true]
  · have : rq.data_length ≠ 4 := by rw [hrql]; exact h4
    simp only [this, ne_eq, not_false_eq_true, if_true]

/-- C4: equal address, function 3 or 4, recorded lengths those of the payloads.  The
splitter returns a sequence exactly when the request payload has 4 bytes, the response
payload has `register_count * 2 + 1` bytes and the response's first byte is
`register_count * 2`, both products being exact integers; otherwise it returns none. -/
theorem split_function_3_and_4_accepts_iff (rq rs : ModbusFrame)
    (ha : rq.address = rs.address) (hf : rq.function = rs.function)
    (h34 : rq.function.val = 3 ∨ rq.function.val = 4)
    (hrql : rq.data_length = rq.data.length) (hrsl : rs.data_length = rs.data.length) :
    ((∃ obs, split_request_and_response_data (some rq) (some rs) = Exec.ok (some obs))
        ↔ (rq.data.length = 4 ∧ rs.data.length = register_count_of rq * 2 + 1
            ∧ (rs.data.getD 0 0).val = register_count_of rq * 2))
    ∧ (¬ (rq.data.length = 4 ∧ rs.data.length = register_count_of rq * 2 + 1
            ∧ (rs.data.getD 0 0).val = register_count_of rq * 2)
        → split_request_and_response_data (some rq) (some rs) = Exec.ok none) := by
  rw [split_eq_handle_function_3_and_4 rq rs ha hf h34]
  refine ⟨⟨?_, ?_⟩, handle_function_3_and_4_rejects rq rs hrql hrsl⟩
  · rintro ⟨obs, hobs⟩
    by_contra hc
    rw [handle_function_3_and_4_rejects rq rs hrql hrsl hc] at hobs
    cases hobs
  · rintro ⟨h4, hl, hb⟩
    obtain ⟨a, b, c, d, hq⟩ := list_of_length_four rq.data h4
    have hrc : register_count_of rq = c.val * 256 + d.val := by
      simp [register_count_of, hq]
    rw [hrc] at hl hb
    exact ⟨_, handle_function_3_and_4_accepts rq rs a b c d hq (by rw [hrql, h4])
      (by omega) hrsl (by omega)⟩

/-- Witness of C4: two registers with a response whose byte-count byte is 2, and
register count `0x8000` with a 1-byte response, are both rejected. -/
theorem split_function_3_and_4_accepts_iff_witness :
    split_request_and_response_data (some ⟨1, 3, [0, 0, 0, 2], 4⟩)
        (some ⟨1, 3, [2, 0, 1, 0, 2], 5⟩) = Exec.ok none
    ∧ split_request_and_response_data (some ⟨1, 3, [0, 0, 0x80, 0], 4⟩)
        (some ⟨1, 3, [0], 1⟩) = Exec.ok none :=
  ⟨(split_function_3_and_4_accepts_iff ⟨1, 3, [0, 0, 0, 2], 4⟩ ⟨1, 3, [2, 0, 1, 0, 2], 5⟩
      rfl rfl (Or.inl rfl) rfl rfl).2 (by decide),
   (split_function_3_and_4_accepts_iff ⟨1, 3, [0, 0, 0x80, 0], 4⟩ ⟨1, 3, [0], 1⟩
      rfl rfl (Or.inl rfl) rfl rfl).2 (by decide)⟩

/-! ## The byte reader -/

theorem available_nil (G L c : Nat) : available ⟨G, L, c, []⟩ = 0 := by
  simp [available]

theorem available_cons_eq_zero (G L c t : Nat) (b : Byte) (rest : List (Nat × Byte)) :
    available ⟨G, L, c, (t, b) :: rest⟩ = 0 ↔ c < t := by
  by_cases h : t ≤ c
  · simp [available, List.takeWhile, h]
  · simp [available, List.takeWhile, h]; omega

theorem wait_for_next_byte_arrives (G L t : Nat) (b : Byte) (rest : List (Nat × Byte)) :
    ∀ (fuel c : Nat), c < t → t ≤ last_poll G L c → (L + G - c) / 100 + 1 ≤ fuel →
      wait_for_next_byte fuel ⟨G, L, c, (t, b) :: rest⟩ = ⟨G, L, read_time c t, (t, b) :: rest⟩ := by
  intro fuel
  induction fuel with
  | zero => intro c _ _ hf; omega
  | succ fuel ih =>
    intro c hct htd hf
    unfold last_poll at htd
    rw [wait_for_next_byte]
    simp only [esp_rom_delay_us, esp_timer_get_time, available_cons_eq_zero, decide_eq_false_iff_not,
      gt_iff_lt, not_lt]
    by_cases h1 : c + 100 < t
    · have h2 : c + 100 - L ≤ G := by
        by_contra hc
        have : (L + G - c) / 100 = 0 := by omega
        omega
      rw [if_pos ⟨h1, h2⟩, ih (c + 100) h1 (by unfold last_poll; omega) (by omega)]
      simp only [read_time]
      rw [if_neg (by omega), if_neg (by omega)]
      congr 1
      omega
    · rw [if_neg (by intro h; exact h1 h.1)]
      simp only [read_time]
      rw [if_neg (by omega)]
      congr 1
      omega

theorem wait_for_next_byte_times_out (G L : Nat) (rx : List (Nat × Byte)) :
    ∀ (fuel c : Nat), (∀ t b rest, rx = (t, b) :: rest → last_poll G L c < t) →
      (L + G - c) / 100 + 1 ≤ fuel →
      wait_for_next_byte fuel ⟨G, L, c, rx⟩ = ⟨G, L, last_poll G L c, rx⟩ := by
  intro fuel
  induction fuel with
  | zero => intro c _ hf; omega
  | succ fuel ih =>
    intro c hrx hf
    have hav : ∀ c1, c1 ≤ last_poll G L c → available ⟨G, L, c1, rx⟩ = 0 := by
      intro c1 hc1
      match rx, hrx with
      | [], _ => exact available_nil G L c1
      | (t, b) :: rest, hrx =>
        have := hrx t b rest rfl
        rw [available_cons_eq_zero]; omega
    rw [wait_for_next_byte]
    simp only [esp_rom_delay_us, esp_timer_get_time, decide_eq_false_iff_not, gt_iff_lt, not_lt]
    rw [hav (c + 100) (by unfold last_poll; omega)]
    by_cases h2 : c + 100 - L ≤ G
    · rw [if_pos ⟨rfl, h2⟩]
      have e : last_poll G L (c + 100) = last_poll G L c := by unfold last_poll; omega
      rw [ih (c + 100) (by intro t b rest h; rw [e]; exact hrx t b rest h) (by omega), e]
    · rw [if_neg (by intro h; exact h2 h.2)]
      congr 1
      unfold last_poll
      have : (L + G - c) / 100 = 0 := by omega
      omega

theorem le_read_time (c t : Nat) : t ≤ read_time c t ∧ c ≤ read_time c t := by
  unfold read_time
  split <;> omega

theorem read_next_byte_ok (G L c t : Nat) (b : Byte) (rest : List (Nat × Byte))
    (h : t ≤ c ∨ t ≤ last_poll G L c) :
    read_next_byte ⟨G, L, c, (t, b) :: rest⟩
      = (some b, ⟨G, read_time c t, read_time c t, rest⟩) := by
  unfold read_next_byte
  by_cases hc : t ≤ c
  · have h0 : ¬ available ⟨G, L, c, (t, b) :: rest⟩ = 0 := by
      rw [available_cons_eq_zero]; omega
    rw [if_neg h0]
    simp [read_byte, hc, esp_timer_get_time, read_time]
  · have hd : t ≤ last_poll G L c := by
      rcases h with h | h
      · exact absurd h hc
      · exact h
    have h0 : available ⟨G, L, c, (t, b) :: rest⟩ = 0 := by
      rw [available_cons_eq_zero]; omega
    rw [if_pos h0]
    simp only [wait_fuel]
    rw [wait_for_next_byte_arrives G L t b rest _ c (by omega) hd (le_refl _)]
    have h1 : ¬ available ⟨G, L, read_time c t, (t, b) :: rest⟩ = 0 := by
      rw [available_cons_eq_zero]
      have := (le_read_time c t).1
      omega
    rw [if_neg h1]
    simp [read_byte, (le_read_time c t).1, esp_timer_get_time]

theorem read_next_byte_times_out (G L c : Nat) (rx : List (Nat × Byte))
    (h : ∀ t b rest, rx = (t, b) :: rest → last_poll G L c < t) :
    read_next_byte ⟨G, L, c, rx⟩ = (none, ⟨G, L, last_poll G L c, rx⟩) := by
  have hav : ∀ c1, c1 ≤ last_poll G L c → available ⟨G, L, c1, rx⟩ = 0 := by
    intro c1 hc1
    match rx, h with
    | [], _ => exact available_nil G L c1
    | (t, b) :: rest, h =>
      have := h t b rest rfl
      rw [available_cons_eq_zero]; omega
  unfold read_next_byte
  rw [if_pos (hav c (by unfold last_poll; omega))]
  simp only [wait_fuel]
  rw [wait_for_next_byte_times_out G L rx _ c h (le_refl _)]
  rw [if_pos (hav _ (le_refl _))]

theorem arrives_in_time_append (G : Nat) : ∀ (w1 w2 : List (Nat × Byte)) (c : Nat),
    arrives_in_time G c (w1 ++ w2)
      = (arrives_in_time G c w1 && arrives_in_time G (time_after c w1) w2) := by
  intro w1
  induction w1 with
  | nil => intro w2 c; simp [arrives_in_time, time_after]
  | cons p w1 ih =>
    intro w2 c
    obtain ⟨t, b⟩ := p
    simp [arrives_in_time, time_after, ih, Bool.and_assoc]

theorem time_after_append : ∀ (w1 w2 : List (Nat × Byte)) (c : Nat),
    time_after c (w1 ++ w2) = time_after (time_after c w1) w2 := by
  intro w1
  induction w1 with
  | nil => intro w2 c; rfl
  | cons p w1 ih =>
    intro w2 c
    obtain ⟨t, b⟩ := p
    simp [time_after, ih]

theorem read_data_bytes_ok (G : Nat) : ∀ (wire rest : List (Nat × Byte)) (c : Nat),
    arrives_in_time G c wire = true →
    read_data_bytes wire.length ⟨G, c, c, wire ++ rest⟩
      = (some (wire.map Prod.snd), ⟨G, time_after c wire, time_after c wire, rest⟩) := by
  intro wire
  induction wire with
  | nil => intro rest c _; rfl
  | cons p wire ih =>
    intro rest c h
    obtain ⟨t, b⟩ := p
    simp only [arrives_in_time, Bool.and_eq_true, decide_eq_true_eq] at h
    simp only [List.length_cons, List.cons_append, read_data_bytes]
    rw [read_next_byte_ok G c c t b _ (Or.inr h.1)]
    simp only [ih rest _ h.2, List.map_cons, time_after]

theorem wait_for_response_ok (MAX t0 G L t : Nat) (b : Byte) (rest : List (Nat × Byte)) :
    ∀ (fuel c : Nat), (t ≤ c ∨ response_start c t / 1000 - t0 < MAX) →
      (t - c + 49) / 50 < fuel →
      wait_for_response MAX t0 fuel ⟨G, L, c, (t, b) :: rest⟩
        = (true, ⟨G, L, response_start c t, (t, b) :: rest⟩) := by
  intro fuel
  induction fuel with
  | zero => intro c _ hf; omega
  | succ fuel ih =>
    intro c h hf
    rw [wait_for_response]
    by_cases hc : t ≤ c
    · rw [if_neg (by rw [available_cons_eq_zero]; omega)]
      simp [response_start, hc]
    · have h' : response_start c t / 1000 - t0 < MAX := by
        rcases h with h | h
        · exact absurd h hc
        · exact h
      have e : response_start (c + 50) t = response_start c t := by
        unfold response_start
        rw [if_neg hc]
        split <;> omega
      have hle : c + 50 ≤ response_start c t := by
        unfold response_start
        rw [if_neg hc]; omega
      rw [if_pos (by rw [available_cons_eq_zero]; omega)]
      simp only [esp_rom_delay_us, tick_count_ms, ge_iff_le]
      rw [if_neg (by omega), ih (c + 50) (by rw [e]; exact Or.inr h') (by omega), e]

theorem crc16_bit_lt (crc : Nat) (h : crc < 65536) : crc16_bit crc < 65536 := by
  have h1 : crc >>> 1 < 2 ^ 16 := by
    rw [Nat.shiftRight_eq_div_pow]; omega
  unfold crc16_bit
  split
  · exact Nat.xor_lt_two_pow h1 (by norm_num)
  · exact h1

theorem crc16_byte_lt (crc : Nat) (b : Byte) (h : crc < 65536) : crc16_byte crc b < 65536 := by
  have hb : b.val < 2 ^ 16 := by have := b.isLt; omega
  have h0 : crc ^^^ b.val < 65536 := Nat.xor_lt_two_pow (n := 16) h hb
  unfold crc16_byte
  exact crc16_bit_lt _ (crc16_bit_lt _ (crc16_bit_lt _ (crc16_bit_lt _ (crc16_bit_lt _
    (crc16_bit_lt _ (crc16_bit_lt _ (crc16_bit_lt _ h0)))))))

theorem crc16_lt (data : List Byte) : crc16 data < 65536 := by
  have : ∀ (l : List Byte) (crc : Nat), crc < 65536 → l.foldl crc16_byte crc < 65536 := by
    intro l
    induction l with
    | nil => intro crc h; exact h
    | cons b l ih => intro crc h; exact ih _ (crc16_byte_lt crc b h)
  exact this data 0xFFFF (by norm_num)

theorem or_shl8 (lo hi : Byte) : (lo.val ||| (hi.val <<< 8)) % 65536 = lo.val + 256 * hi.val := by
  rw [Nat.lor_comm, shl8_or]; omega

theorem read_crc_and_check_ok (G c tl th : Nat) (address function crc_lo crc_hi : Byte)
    (crc_data data : List Byte) (data_length : Nat) (tail : List (Nat × Byte))
    (h : arrives_in_time G c [(tl, crc_lo), (th, crc_hi)] = true) :
    read_crc_and_check address function crc_data data data_length
        ⟨G, c, c, (tl, crc_lo) :: (th, crc_hi) :: tail⟩
      = (if crc16 crc_data = crc_lo.val + 256 * crc_hi.val
          then some ⟨address, function, data, data_length⟩ else none,
         ⟨G, time_after c [(tl, crc_lo), (th, crc_hi)],
          time_after c [(tl, crc_lo), (th, crc_hi)], tail⟩) := by
  simp only [arrives_in_time, Bool.and_eq_true, decide_eq_true_eq, and_true] at h
  unfold read_crc_and_check
  rw [read_next_byte_ok G c c tl crc_lo _ (Or.inr h.1)]
  simp only
  rw [read_next_byte_ok G _ _ th crc_hi _ (Or.inr h.2)]
  simp only [or_shl8, Nat.mod_eq_of_lt (crc16_lt crc_data), time_after]
  by_cases hcrc : crc16 crc_data = crc_lo.val + 256 * crc_hi.val
  · simp [hcrc]
  · simp [hcrc]

/-! ## detect_response on a stream delivered in time -/

theorem wait_for_response_start (MAX G L c t : Nat) (b : Byte) (rest : List (Nat × Byte))
    (h : t ≤ c ∨ response_start c t / 1000 - c / 1000 < MAX) :
    wait_for_response MAX (tick_count_ms ⟨G, L, c, (t, b) :: rest⟩) (20 * (MAX + 1))
        ⟨G, L, c, (t, b) :: rest⟩
      = (true, ⟨G, L, response_start c t, (t, b) :: rest⟩) := by
  apply wait_for_response_ok MAX _ G L t b rest _ c h
  by_cases hc : t ≤ c
  · have : (t - c + 49) / 50 = 0 := by omega
    omega
  · have h' : response_start c t / 1000 - c / 1000 < MAX := by
      rcases h with h | h
      · exact absurd h hc
      · exact h
    unfold response_start at h'
    rw [if_neg hc] at h'
    omega

theorem detect_response_read_type_full (MAX G L c : Nat) (address function byte_count crc_lo crc_hi : Byte)
    (ta tf tb tl th : Nat) (dwire tail : List (Nat × Byte))
    (hf : 1 ≤ function.val ∧ function.val ≤ 4)
    (hlen : dwire.length = byte_count.val)
    (htime : delivered_in_time MAX G c
      ((ta, address) :: (tf, function) :: (tb, byte_count) ::
        (dwire ++ [(tl, crc_lo), (th, crc_hi)])) = true) :
    detect_response MAX ⟨G, L, c, (ta, address) :: (tf, function) :: (tb, byte_count) ::
        (dwire ++ (tl, crc_lo) :: (th, crc_hi) :: tail)⟩
      = (if crc16 (address :: function :: byte_count :: dwire.map Prod.snd)
            = crc_lo.val + 256 * crc_hi.val
          then some ⟨address, function, byte_count :: dwire.map Prod.snd, byte_count.val + 1⟩
          else none,
         ⟨G, time_after (response_start c ta) ((ta, address) :: (tf, function) :: (tb, byte_count) ::
            (dwire ++ [(tl, crc_lo), (th, crc_hi)])),
          time_after (response_start c ta) ((ta, address) :: (tf, function) :: (tb, byte_count) ::
            (dwire ++ [(tl, crc_lo), (th, crc_hi)])), tail⟩) := by
  simp only [delivered_in_time, arrives_in_time, arrives_in_time_append, Bool.and_eq_true,
    decide_eq_true_eq] at htime
  obtain ⟨h0, h1, h2, h3, h4, h5⟩ := htime
  unfold detect_response
  simp only
  rw [wait_for_response_start MAX G L c ta address _ h0]
  simp only [esp_timer_get_time]
  rw [read_next_byte_ok G _ _ ta address _ (Or.inr h1)]
  simp only
  rw [read_next_byte_ok G _ _ tf function _ (Or.inr h2)]
  simp only
  rw [if_pos hf, read_next_byte_ok G _ _ tb byte_count _ (Or.inr h3)]
  simp only
  rw [← hlen, read_data_bytes_ok G dwire _ _ h4]
  simp only
  rw [read_crc_and_check_ok G _ tl th address function crc_lo crc_hi _ _ _ tail
    (by simp only [arrives_in_time, Bool.and_eq_true, decide_eq_true_eq]; exact h5)]
  simp only [time_after, time_after_append]

theorem detect_response_write_type_full (MAX G L c : Nat)
    (address function p0 p1 p2 p3 crc_lo crc_hi : Byte)
    (ta tf t0 t1 t2 t3 tl th : Nat) (tail : List (Nat × Byte))
    (hf : function.val = 5 ∨ function.val = 6 ∨ function.val = 15 ∨ function.val = 16)
    (htime : delivered_in_time MAX G c
      [(ta, address), (tf, function), (t0, p0), (t1, p1), (t2, p2), (t3, p3),
        (tl, crc_lo), (th, crc_hi)] = true) :
    detect_response MAX ⟨G, L, c, (ta, address) :: (tf, function) :: (t0, p0) :: (t1, p1) ::
        (t2, p2) :: (t3, p3) :: (tl, crc_lo) :: (th, crc_hi) :: tail⟩
      = (if crc16 [address, function, p0, p1, p2, p3] = crc_lo.val + 256 * crc_hi.val
          then some ⟨address, function, [p0, p1, p2, p3], 4⟩
          else none,
         ⟨G, time_after (response_start c ta) [(ta, address), (tf, function), (t0, p0), (t1, p1),
            (t2, p2), (t3, p3), (tl, crc_lo), (th, crc_hi)],
          time_after (response_start c ta) [(ta, address), (tf, function), (t0, p0), (t1, p1),
            (t2, p2), (t3, p3), (tl, crc_lo), (th, crc_hi)], tail⟩) := by
  have hsplit : arrives_in_time G (read_time (read_time (response_start c ta) ta) tf)
        ([(t0, p0), (t1, p1), (t2, p2), (t3, p3)] ++ [(tl, crc_lo), (th, crc_hi)]) = true := by
    simp only [delivered_in_time, arrives_in_time, Bool.and_eq_true, decide_eq_true_eq] at htime
    simp only [List.cons_append, List.nil_append, arrives_in_time, Bool.and_eq_true,
      decide_eq_true_eq]
    exact htime.2.2.2
  rw [arrives_in_time_append, Bool.and_eq_true] at hsplit
  simp only [delivered_in_time, arrives_in_time, Bool.and_eq_true, decide_eq_true_eq] at htime
  obtain ⟨h0, h1, h2, -⟩ := htime
  have hnot : ¬ (1 ≤ function.val ∧ function.val ≤ 4) := by omega
  unfold detect_response
  simp only
  rw [wait_for_response_start MAX G L c ta address _ h0]
  simp only [esp_timer_get_time]
  rw [read_next_byte_ok G _ _ ta address _ (Or.inr h1)]
  simp only
  rw [read_next_byte_ok G _ _ tf function _ (Or.inr h2)]
  simp only
  rw [if_neg hnot, if_pos hf]
  have hd := read_data_bytes_ok G [(t0, p0), (t1, p1), (t2, p2), (t3, p3)]
    ((tl, crc_lo) :: (th, crc_hi) :: tail) _ hsplit.1
  simp only [List.length_cons, List.length_nil, List.cons_append, List.nil_append, List.map_cons,
    List.map_nil] at hd
  rw [hd]
  simp only
  rw [read_crc_and_check_ok G _ tl th address function crc_lo crc_hi _ _ _ tail hsplit.2]
  simp only [time_after]

/-- C5: a stream that delivers, without a timeout, the bytes address, function `f` with
`1 ≤ f ≤ 4`, byte count `b`, `b` data bytes, CRC low, CRC high.  `detect_response`
returns a frame exactly when `crc16` over address, function, byte count and data equals
`crc_lo + 256 * crc_hi`; the frame then has that address, that function and the payload
`b :: data` of length `b + 1`, first byte the byte count. -/
theorem detect_response_read_type (MAX : Nat) (d : ModbusResponseDetector)
    (address function byte_count crc_lo crc_hi : Byte)
    (ta tf tb tl th : Nat) (dwire tail : List (Nat × Byte))
    (hf : 1 ≤ function.val ∧ function.val ≤ 4)
    (hlen : dwire.length = byte_count.val)
    (hrx : d.uart_rx = (ta, address) :: (tf, function) :: (tb, byte_count) ::
        (dwire ++ (tl, crc_lo) :: (th, crc_hi) :: tail))
    (htime : delivered_in_time MAX d.max_time_between_bytes_in_us_ d.clock
      ((ta, address) :: (tf, function) :: (tb, byte_count) ::
        (dwire ++ [(tl, crc_lo), (th, crc_hi)])) = true) :
    (detect_response MAX d).1
        = (if crc16 (address :: function :: byte_count :: dwire.map Prod.snd)
              = crc_lo.val + 256 * crc_hi.val
            then some ⟨address, function, byte_count :: dwire.map Prod.snd, byte_count.val + 1⟩
            else none)
      ∧ (byte_count :: dwire.map Prod.snd).length = byte_count.val + 1 := by
  obtain ⟨G, L, c, rx⟩ := d
  simp only at hrx htime
  subst hrx
  rw [detect_response_read_type_full MAX G L c address function byte_count crc_lo crc_hi
    ta tf tb tl th dwire tail hf hlen htime]
  simp [hlen]

/-- Witness of C5: `01 03 02 12 34 B5 33` arriving one character time apart at 9600 baud. -/
theorem detect_response_read_type_witness :
    (detect_response 500 ⟨1719, 0, 0, [(0, 0x01), (1146, 0x03), (2292, 0x02), (3438, 0x12),
        (4584, 0x34), (5730, 0xB5), (6876, 0x33)]⟩).1 = some ⟨0x01, 0x03, [0x02, 0x12, 0x34], 3⟩ :=
  (detect_response_read_type 500 ⟨1719, 0, 0, [(0, 0x01), (1146, 0x03), (2292, 0x02), (3438, 0x12),
        (4584, 0x34), (5730, 0xB5), (6876, 0x33)]⟩ 0x01 0x03 0x02 0xB5 0x33 0 1146 2292 5730 6876
      [(3438, 0x12), (4584, 0x34)] [] (by decide) rfl rfl (by decide)).1

/-- C6: a stream that delivers, without a timeout, the bytes address, function `f` in
`{5, 6, 15, 16}`, `p_0 .. p_3`, CRC low, CRC high.  `detect_response` returns a frame
exactly when `crc16` over address, function and `p_0 .. p_3` equals
`crc_lo + 256 * crc_hi`; the frame then has that address, that function and payload
exactly `[p_0, p_1, p_2, p_3]`. -/
theorem detect_response_write_type (MAX : Nat) (d : ModbusResponseDetector)
    (address function p0 p1 p2 p3 crc_lo crc_hi : Byte)
    (ta tf t0 t1 t2 t3 tl th : Nat) (tail : List (Nat × Byte))
    (hf : function.val = 5 ∨ function.val = 6 ∨ function.val = 15 ∨ function.val = 16)
    (hrx : d.uart_rx = (ta, address) :: (tf, function) :: (t0, p0) :: (t1, p1) ::
        (t2, p2) :: (t3, p3) :: (tl, crc_lo) :: (th, crc_hi) :: tail)
    (htime : delivered_in_time MAX d.max_time_between_bytes_in_us_ d.clock
      [(ta, address), (tf, function), (t0, p0), (t1, p1), (t2, p2), (t3, p3),
        (tl, crc_lo), (th, crc_hi)] = true) :
    (detect_response MAX d).1
      = (if crc16 [address, function, p0, p1, p2, p3] = crc_lo.val + 256 * crc_hi.val
          then some ⟨address, function, [p0, p1, p2, p3], 4⟩
          else none) := by
  obtain ⟨G, L, c, rx⟩ := d
  simp only at hrx htime
  subst hrx
  rw [detect_response_write_type_full MAX G L c address function p0 p1 p2 p3 crc_lo crc_hi
    ta tf t0 t1 t2 t3 tl th tail hf htime]

/-- Witness of C6: the write-single-register frame `01 06 00 05 00 64 98 20`, one
character time apart at 9600 baud. -/
theorem detect_response_write_type_witness :
    (detect_response 500 ⟨1719, 0, 0, [(0, 0x01), (1146, 0x06), (2292, 0x00), (3438, 0x05),
        (4584, 0x00), (5730, 0x64), (6876, 0x98), (8022, 0x20)]⟩).1
      = some ⟨0x01, 0x06, [0x00, 0x05, 0x00, 0x64], 4⟩ :=
  detect_response_write_type 500 ⟨1719, 0, 0, [(0, 0x01), (1146, 0x06), (2292, 0x00), (3438, 0x05),
        (4584, 0x00), (5730, 0x64), (6876, 0x98), (8022, 0x20)]⟩ 0x01 0x06 0x00 0x05 0x00 0x64
      0x98 0x20 0 1146 2292 3438 4584 5730 6876 8022 [] (by decide) rfl (by decide)

/-! ## detect_response on a stream that stalls -/

theorem read_next_byte_stalled (G c : Nat) (late : List (Nat × Byte))
    (h : stalled G c late = true) :
    read_next_byte ⟨G, c, c, late⟩ = (none, ⟨G, c, last_poll G c c, late⟩) := by
  apply read_next_byte_times_out
  intro t b rest hl
  subst hl
  simpa [stalled] using h

theorem read_next_byte_wire (G c : Nat) (wire late : List (Nat × Byte))
    (hw : arrives_in_time G c wire = true) (hl : stalled G (time_after c wire) late = true) :
    read_next_byte ⟨G, c, c, wire ++ late⟩
      = match wire with
        | [] => (none, ⟨G, c, last_poll G c c, late⟩)
        | (t, b) :: w => (some b, ⟨G, read_time c t, read_time c t, w ++ late⟩) := by
  match wire, hw, hl with
  | [], _, hl => exact read_next_byte_stalled G c late hl
  | (t, b) :: w, hw, _ =>
    simp only [arrives_in_time, Bool.and_eq_true, decide_eq_true_eq] at hw
    exact read_next_byte_ok G c c t b _ (Or.inr hw.1)

theorem read_data_bytes_wire (G : Nat) (late : List (Nat × Byte)) :
    ∀ (wire : List (Nat × Byte)) (n c : Nat), arrives_in_time G c wire = true →
      stalled G (time_after c wire) late = true →
      read_data_bytes n ⟨G, c, c, wire ++ late⟩
        = if n ≤ wire.length then
            (some ((wire.take n).map Prod.snd),
              ⟨G, time_after c (wire.take n), time_after c (wire.take n), wire.drop n ++ late⟩)
          else (none, ⟨G, time_after c wire, last_poll G (time_after c wire) (time_after c wire),
              late⟩) := by
  intro wire
  induction wire with
  | nil =>
    intro n c _ hl
    cases n with
    | zero => simp [read_data_bytes, time_after]
    | succ n =>
      simp only [time_after] at hl
      simp [read_data_bytes, read_next_byte_stalled G c late hl, time_after]
  | cons p w ih =>
    intro n c hw hl
    obtain ⟨t, b⟩ := p
    cases n with
    | zero => simp [read_data_bytes, time_after]
    | succ n =>
      simp only [arrives_in_time, Bool.and_eq_true, decide_eq_true_eq] at hw
      simp only [time_after] at hl
      simp only [List.cons_append, read_data_bytes]
      rw [read_next_byte_ok G c c t b _ (Or.inr hw.1)]
      simp only
      rw [ih n _ hw.2 hl]
      by_cases hn : n ≤ w.length
      · simp [hn, time_after]
      · simp [hn, time_after]

theorem read_crc_and_check_wire (G c : Nat) (address function : Byte)
    (crc_data data : List Byte) (data_length : Nat) (wire late : List (Nat × Byte))
    (hw : arrives_in_time G c wire = true) (hl : stalled G (time_after c wire) late = true) :
    (read_crc_and_check address function crc_data data data_length ⟨G, c, c, wire ++ late⟩).1
      = checked_frame address function crc_data data data_length (wire.map Prod.snd) := by
  unfold read_crc_and_check
  match wire, hw, hl with
  | [], _, hl =>
    simp only [time_after] at hl
    simp [read_next_byte_stalled G c late hl, checked_frame]
  | [(t, lo)], hw, hl =>
    simp only [arrives_in_time, Bool.and_eq_true, decide_eq_true_eq] at hw
    simp only [time_after] at hl
    simp only [List.cons_append, List.nil_append]
    rw [read_next_byte_ok G c c t lo _ (Or.inr hw.1)]
    simp [read_next_byte_stalled G _ late hl, checked_frame]
  | (t, lo) :: (t2, hi) :: w, hw, _ =>
    simp only [arrives_in_time, Bool.and_eq_true, decide_eq_true_eq] at hw
    simp only [List.cons_append]
    rw [read_next_byte_ok G c c t lo _ (Or.inr hw.1)]
    simp only
    rw [read_next_byte_ok G _ _ t2 hi _ (Or.inr hw.2.1)]
    simp only [or_shl8, Nat.mod_eq_of_lt (crc16_lt crc_data), List.map_cons, checked_frame]
    by_cases hcrc : crc16 crc_data = lo.val + 256 * hi.val
    · simp [hcrc]
    · simp [hcrc]

theorem detect_response_wire (MAX G L c : Nat) (wire late : List (Nat × Byte))
    (hne : wire ≠ []) (hw : delivered_in_time MAX G c wire = true)
    (hl : stalled G (end_of_wire c wire) late = true) :
    (detect_response MAX ⟨G, L, c, wire ++ late⟩).1 = frame_of_wire (wire.map Prod.snd) := by
  match wire, hne, hw, hl with
  | (ta, address) :: w1, _, hw, hl =>
    simp only [delivered_in_time, arrives_in_time, Bool.and_eq_true, decide_eq_true_eq] at hw
    obtain ⟨h0, h1, hw1⟩ := hw
    simp only [end_of_wire, time_after] at hl
    unfold detect_response
    simp only [List.cons_append]
    rw [wait_for_response_start MAX G L c ta address _ h0]
    simp only [esp_timer_get_time]
    rw [read_next_byte_ok G _ _ ta address _ (Or.inr h1)]
    simp only
    rw [read_next_byte_wire G _ w1 late hw1 hl]
    match w1, hw1, hl with
    | [], _, _ => simp [frame_of_wire]
    | (tf, function) :: w2, hw1, hl =>
      simp only [arrives_in_time, Bool.and_eq_true, decide_eq_true_eq] at hw1
      obtain ⟨-, hw2⟩ := hw1
      simp only [time_after] at hl
      simp only [List.map_cons, frame_of_wire]
      by_cases hf : 1 ≤ function.val ∧ function.val ≤ 4
      · rw [if_pos hf, if_pos hf, read_next_byte_wire G _ w2 late hw2 hl]
        match w2, hw2, hl with
        | [], _, _ => simp
        | (tb, byte_count) :: w3, hw2, hl =>
          simp only [arrives_in_time, Bool.and_eq_true, decide_eq_true_eq] at hw2
          obtain ⟨-, hw3⟩ := hw2
          simp only [time_after] at hl
          simp only [List.map_cons, List.length_map]
          rw [read_data_bytes_wire G late w3 byte_count.val _ hw3 hl]
          by_cases hn : byte_count.val ≤ w3.length
          · rw [if_pos hn, if_pos hn]
            simp only
            have hsplit : arrives_in_time G
                (time_after (read_time (read_time (read_time (response_start c ta) ta) tf) tb)
                  (w3.take byte_count.val)) (w3.drop byte_count.val) = true := by
              have := arrives_in_time_append G (w3.take byte_count.val) (w3.drop byte_count.val)
                (read_time (read_time (read_time (response_start c ta) ta) tf) tb)
              rw [List.take_append_drop, hw3] at this
              simp only [Bool.true_eq, Bool.and_eq_true] at this
              exact this.2
            have hend : time_after (time_after
                (read_time (read_time (read_time (response_start c ta) ta) tf) tb)
                  (w3.take byte_count.val)) (w3.drop byte_count.val)
                = time_after (read_time (read_time (read_time (response_start c ta) ta) tf) tb) w3 := by
              rw [← time_after_append, List.take_append_drop]
            rw [read_crc_and_check_wire G _ address function _ _ _ (w3.drop byte_count.val) late
              hsplit (by rw [hend]; exact hl)]
            simp [List.map_take, List.map_drop]
          · rw [if_neg hn, if_neg hn]
      · rw [if_neg hf, if_neg hf]
        by_cases hg : function.val = 5 ∨ function.val = 6 ∨ function.val = 15 ∨ function.val = 16
        · rw [if_pos hg, if_pos hg, read_data_bytes_wire G late w2 4 _ hw2 hl]
          simp only [List.length_map]
          by_cases hn : 4 ≤ w2.length
          · rw [if_pos hn, if_pos hn]
            simp only
            have hsplit : arrives_in_time G
                (time_after (read_time (read_time (response_start c ta) ta) tf) (w2.take 4))
                (w2.drop 4) = true := by
              have := arrives_in_time_append G (w2.take 4) (w2.drop 4)
                (read_time (read_time (response_start c ta) ta) tf)
              rw [List.take_append_drop, hw2] at this
              simp only [Bool.true_eq, Bool.and_eq_true] at this
              exact this.2
            have hend : time_after (time_after
                (read_time (read_time (response_start c ta) ta) tf) (w2.take 4)) (w2.drop 4)
                = time_after (read_time (read_time (response_start c ta) ta) tf) w2 := by
              rw [← time_after_append, List.take_append_drop]
            rw [read_crc_and_check_wire G _ address function _ _ _ (w2.drop 4) late
              hsplit (by rw [hend]; exact hl)]
            simp [List.map_take, List.map_drop]
          · rw [if_neg hn, if_neg hn]
        · rw [if_neg hg, if_neg hg]

theorem arrives_in_time_times (G : Nat) : ∀ (l l2 : List (Nat × Byte)) (c : Nat),
    l.map Prod.fst = l2.map Prod.fst →
    arrives_in_time G c l = arrives_in_time G c l2 ∧ time_after c l = time_after c l2 := by
  intro l
  induction l with
  | nil =>
    intro l2 c h
    cases l2 with
    | nil => exact ⟨rfl, rfl⟩
    | cons p l2 => simp at h
  | cons p l ih =>
    intro l2 c h
    cases l2 with
    | nil => simp at h
    | cons q l2 =>
      obtain ⟨t, b⟩ := p
      obtain ⟨t2, b2⟩ := q
      simp only [List.map_cons, List.cons.injEq] at h
      obtain ⟨rfl, h⟩ := h
      simp only [arrives_in_time, time_after]
      rw [(ih l2 _ h).1, (ih l2 _ h).2]
      exact ⟨rfl, rfl⟩

theorem delivered_in_time_times (MAX G c : Nat) (l l2 : List (Nat × Byte))
    (h : l.map Prod.fst = l2.map Prod.fst) :
    delivered_in_time MAX G c l = delivered_in_time MAX G c l2
      ∧ end_of_wire c l = end_of_wire c l2 := by
  cases l with
  | nil =>
    cases l2 with
    | nil => exact ⟨rfl, rfl⟩
    | cons p l2 => simp at h
  | cons p l =>
    cases l2 with
    | nil => simp at h
    | cons q l2 =>
      obtain ⟨t, b⟩ := p
      obtain ⟨t2, b2⟩ := q
      have h' := h
      simp only [List.map_cons, List.cons.injEq] at h'
      obtain ⟨rfl, -⟩ := h'
      simp only [delivered_in_time, end_of_wire]
      rw [(arrives_in_time_times G _ _ _ h).1, (arrives_in_time_times G _ _ _ h).2]
      exact ⟨rfl, rfl⟩

theorem detect_response_zip (MAX G L c : Nat) (ts : List Nat) (bs bs0 : List Byte)
    (hlen : bs.length = bs0.length) (hts : ts.length = bs0.length) (hne : bs0 ≠ [])
    (htime : delivered_in_time MAX G c (ts.zip bs0) = true) :
    (detect_response MAX ⟨G, L, c, ts.zip bs⟩).1 = frame_of_wire bs := by
  have hfst : (ts.zip bs).map Prod.fst = (ts.zip bs0).map Prod.fst := by
    rw [List.map_fst_zip _ _ (by omega), List.map_fst_zip _ _ (by omega)]
  have hsnd : (ts.zip bs).map Prod.snd = bs := List.map_snd_zip _ _ (by omega)
  have hne2 : ts.zip bs ≠ [] := by
    intro h
    have h2 := congrArg List.length h
    have h3 : 0 < bs0.length := List.length_pos.mpr hne
    simp only [List.length_zip, List.length_nil] at h2
    omega
  have h := detect_response_wire MAX G L c (ts.zip bs) [] hne2
    (by rw [(delivered_in_time_times MAX G c _ _ hfst).1]; exact htime) rfl
  rw [List.append_nil, hsnd] at h
  exact h

theorem flip_bit_at_length (k : Nat) : ∀ (bs : List Byte) (i : Nat),
    (flip_bit_at i k bs).length = bs.length := by
  intro bs
  induction bs with
  | nil => intro i; simp [flip_bit_at]
  | cons b bs ih =>
    intro i
    cases i with
    | zero => simp [flip_bit_at]
    | succ i => simp [flip_bit_at, ih]

theorem frame_of_wire_bit_flips (i k : Nat) (h2 : 2 ≤ i) (h7 : i < 7) (hk : k < 8) :
    frame_of_wire (flip_bit_at i k (with_crc [0x01, 0x03, 0x02, 0x12, 0x34])) = none := by
  interval_cases i <;> interval_cases k <;> decide

/-- C7: the wire bytes `01 03 02 12 34` followed by their CRC-16/Modbus, low byte first,
delivered without a timeout and followed by silence.  `detect_response` yields the frame
with address 1, function 3 and payload `[0x02, 0x12, 0x34]`; with any single bit inverted
in a payload byte (positions 2 to 4) or in a CRC byte (positions 5 and 6) it yields
nothing. -/
theorem detect_response_single_bit_flips (MAX G L c : Nat) (ts : List Nat)
    (hts : ts.length = 7)
    (htime : delivered_in_time MAX G c
      (ts.zip (with_crc [0x01, 0x03, 0x02, 0x12, 0x34])) = true) :
    (detect_response MAX ⟨G, L, c, ts.zip (with_crc [0x01, 0x03, 0x02, 0x12, 0x34])⟩).1
        = some ⟨0x01, 0x03, [0x02, 0x12, 0x34], 3⟩
      ∧ ∀ i k, 2 ≤ i → i < 7 → k < 8 →
          (detect_response MAX ⟨G, L, c,
            ts.zip (flip_bit_at i k (with_crc [0x01, 0x03, 0x02, 0x12, 0x34]))⟩).1 = none := by
  constructor
  · rw [detect_response_zip MAX G L c ts _ (with_crc [0x01, 0x03, 0x02, 0x12, 0x34]) rfl hts
      (by decide) htime]
    decide
  · intro i k h2 h7 hk
    rw [detect_response_zip MAX G L c ts _ (with_crc [0x01, 0x03, 0x02, 0x12, 0x34])
      (flip_bit_at_length k _ i) hts (by decide) htime]
    exact frame_of_wire_bit_flips i k h2 h7 hk

/-- Witness of C7: the seven bytes one character time apart at 9600 baud; the CRC bytes
are `B5 33`, and inverting the lowest bit of the last CRC byte loses the frame. -/
theorem detect_response_single_bit_flips_witness :
    with_crc [0x01, 0x03, 0x02, 0x12, 0x34] = [0x01, 0x03, 0x02, 0x12, 0x34, 0xB5, 0x33]
    ∧ (detect_response 500 ⟨1719, 0, 0, [(0, 0x01), (1146, 0x03), (2292, 0x02), (3438, 0x12),
        (4584, 0x34), (5730, 0xB5), (6876, 0x33)]⟩).1 = some ⟨0x01, 0x03, [0x02, 0x12, 0x34], 3⟩
    ∧ (detect_response 500 ⟨1719, 0, 0, [(0, 0x01), (1146, 0x03), (2292, 0x02), (3438, 0x12),
        (4584, 0x34), (5730, 0xB5), (6876, 0x32)]⟩).1 = none :=
  ⟨by decide,
   (detect_response_single_bit_flips 500 1719 0 0 [0, 1146, 2292, 3438, 4584, 5730, 6876] rfl
      (by decide)).1,
   (detect_response_single_bit_flips 500 1719 0 0 [0, 1146, 2292, 3438, 4584, 5730, 6876] rfl
      (by decide)).2 6 0 (by decide) (by decide) (by decide)⟩

/-! ## Detection followed by splitting -/

/-- C8 as stated fails on its own witness: `detect_response` reads the third byte of the
request `01 03 00 00 00 01 84 0A` as a byte count, finds no frame in the request bytes,
and the two detections followed by the splitter yield none instead of `{0, 0x1234}`. -/
theorem detect_request_with_detect_response_counterexample :
    with_crc [0x01, 0x03, 0x00, 0x00, 0x00, 0x01]
        = [0x01, 0x03, 0x00, 0x00, 0x00, 0x01, 0x84, 0x0A]
    ∧ (detect_response 500 ⟨1719, 0, 0, [(0, 0x01), (1146, 0x03), (2292, 0x00), (3438, 0x00),
          (4584, 0x00), (5730, 0x01), (6876, 0x84), (8022, 0x0A),
          (20000, 0x01), (21146, 0x03), (22292, 0x02), (23438, 0x12), (24584, 0x34),
          (25730, 0xB5), (26876, 0x33)]⟩).1 = none
    ∧ detect_pair_and_split 500 ⟨1719, 0, 0, [(0, 0x01), (1146, 0x03), (2292, 0x00), (3438, 0x00),
          (4584, 0x00), (5730, 0x01), (6876, 0x84), (8022, 0x0A),
          (20000, 0x01), (21146, 0x03), (22292, 0x02), (23438, 0x12), (24584, 0x34),
          (25730, 0xB5), (26876, 0x33)]⟩ = Exec.ok none
    ∧ detect_pair_and_split 500 ⟨1719, 0, 0, [(0, 0x01), (1146, 0x03), (2292, 0x00), (3438, 0x00),
          (4584, 0x00), (5730, 0x01), (6876, 0x84), (8022, 0x0A),
          (20000, 0x01), (21146, 0x03), (22292, 0x02), (23438, 0x12), (24584, 0x34),
          (25730, 0xB5), (26876, 0x33)]⟩ ≠ Exec.ok (some [⟨0, 0x1234⟩]) := by
  refine ⟨by decide, by decide, by decide, by decide⟩

/-! ## Timeouts inside a frame -/

theorem checked_frame_short (address function : Byte) (crc_data data : List Byte)
    (data_length : Nat) (l : List Byte) (h : l.length < 2) :
    checked_frame address function crc_data data data_length l = none := by
  match l, h with
  | [], _ => rfl
  | [_], _ => rfl

theorem frame_of_wire_short (bs : List Byte) (h : bs.length < bytes_needed bs) :
    frame_of_wire bs = none := by
  match bs, h with
  | [], _ => rfl
  | [_], _ => rfl
  | address :: function :: rest, h =>
    simp only [bytes_needed, List.length_cons] at h
    simp only [frame_of_wire]
    by_cases hf : 1 ≤ function.val ∧ function.val ≤ 4
    · rw [if_pos hf] at h
      rw [if_pos hf]
      match rest, h with
      | [], _ => rfl
      | byte_count :: r, h =>
        simp only [List.length_cons] at h
        simp only
        by_cases hn : byte_count.val ≤ r.length
        · rw [if_pos hn]
          exact checked_frame_short _ _ _ _ _ _ (by rw [List.length_drop]; omega)
        · rw [if_neg hn]
    · rw [if_neg hf] at h
      rw [if_neg hf]
      by_cases hg : function.val = 5 ∨ function.val = 6 ∨ function.val = 15 ∨ function.val = 16
      · rw [if_pos hg] at h
        rw [if_pos hg]
        by_cases hn : 4 ≤ rest.length
        · rw [if_pos hn]
          exact checked_frame_short _ _ _ _ _ _ (by rw [List.length_drop]; omega)
        · rw [if_neg hn]
      · rw [if_neg hg]

/-- C9 (amended): a frame in progress, the bytes `wire` (the address byte and possibly
more, fewer than the frame needs) having been delivered without a timeout.  If the next
byte has not arrived by the last poll of its read, that is the first 100 us poll that is
more than `max_time_between_bytes_in_us_` past the clock at which the previous byte was
read, `detect_response` returns nothing, whatever arrives afterwards. -/
theorem detect_response_stalled (MAX : Nat) (d : ModbusResponseDetector)
    (wire late : List (Nat × Byte))
    (hrx : d.uart_rx = wire ++ late)
    (hne : wire ≠ [])
    (hw : delivered_in_time MAX d.max_time_between_bytes_in_us_ d.clock wire = true)
    (hshort : wire.length < bytes_needed (wire.map Prod.snd))
    (hlate : stalled d.max_time_between_bytes_in_us_ (end_of_wire d.clock wire) late = true) :
    (detect_response MAX d).1 = none := by
  obtain ⟨G, L, c, rx⟩ := d
  simp only at hrx hw hlate
  subst hrx
  rw [detect_response_wire MAX G L c wire late hne hw hlate]
  exact frame_of_wire_short _ (by rw [List.length_map]; exact hshort)

/-- Witness of C9 (amended): at 9600 baud (gap 1719 us) the function byte arrives 1801 us
after the address byte was read, one microsecond after the last poll at 1800; the bytes
that follow would complete the CRC-valid frame `01 03 02 12 34 B5 33`. -/
theorem detect_response_stalled_witness :
    (detect_response 500 ⟨1719, 0, 0, [(0, 0x01), (1801, 0x03), (2947, 0x02), (4093, 0x12),
        (5239, 0x34), (6385, 0xB5), (7531, 0x33)]⟩).1 = none :=
  detect_response_stalled 500 ⟨1719, 0, 0, [(0, 0x01), (1801, 0x03), (2947, 0x02), (4093, 0x12),
      (5239, 0x34), (6385, 0xB5), (7531, 0x33)]⟩ [(0, 0x01)]
    [(1801, 0x03), (2947, 0x02), (4093, 0x12), (5239, 0x34), (6385, 0xB5), (7531, 0x33)]
    rfl (by decide) (by decide) (by decide) (by decide)

/-- C9 as stated fails between the gap and the next poll: at gap 1719 us the function
byte arrives 1750 us after the address byte, which exceeds the gap, and the frame is
still returned, because the poll at 1800 us finds the byte before giving up. -/
theorem detect_response_gap_exceeded_counterexample :
    (1750 - 0 > 1719)
    ∧ (detect_response 500 ⟨1719, 0, 0, [(0, 0x01), (1750, 0x03), (2896, 0x02), (4042, 0x12),
        (5188, 0x34), (6334, 0xB5), (7480, 0x33)]⟩).1
      = some ⟨0x01, 0x03, [0x02, 0x12, 0x34], 3⟩ := by
  refine ⟨by decide, by decide⟩

/-! ## A silent line -/

theorem wait_for_response_gives_up (MAX t0 G L : Nat) (rx : List (Nat × Byte)) :
    ∀ (fuel c : Nat), t0 ≤ c / 1000 →
      (∀ t b rest, rx = (t, b) :: rest → give_up_time MAX t0 c < t) →
      (1000 * (t0 + MAX) - c + 49) / 50 ≤ fuel → 1 ≤ fuel →
      wait_for_response MAX t0 fuel ⟨G, L, c, rx⟩ = (false, ⟨G, L, give_up_time MAX t0 c, rx⟩) := by
  intro fuel
  induction fuel with
  | zero => intro c _ _ _ h; omega
  | succ fuel ih =>
    intro c ht0 hrx hf _
    have hge : c + 50 ≤ give_up_time MAX t0 c := by
      unfold give_up_time
      split <;> omega
    have hav : available ⟨G, L, c, rx⟩ = 0 := by
      match rx, hrx with
      | [], _ => exact available_nil G L c
      | (t, b) :: rest, hrx =>
        have := hrx t b rest rfl
        rw [available_cons_eq_zero]; omega
    rw [wait_for_response, if_pos hav]
    simp only [esp_rom_delay_us, tick_count_ms, ge_iff_le]
    by_cases hT : 1000 * (t0 + MAX) ≤ c + 50
    · rw [if_pos (by omega)]
      simp [give_up_time, hT]
    · have e : give_up_time MAX t0 (c + 50) = give_up_time MAX t0 c := by
        unfold give_up_time
        rw [if_neg hT]
        split <;> omega
      rw [if_neg (by omega), ih (c + 50) (by omega)
        (by intro t b rest h; rw [e]; exact hrx t b rest h) (by omega) (by omega), e]

theorem detect_response_silence (MAX G L c : Nat) :
    (detect_response MAX ⟨G, L, c, []⟩).1 = none := by
  unfold detect_response
  simp only [tick_count_ms]
  rw [wait_for_response_gives_up MAX (c / 1000) G L [] _ c (le_refl _)
    (by intro t b rest h; cases h) (by omega) (by omega)]


/-! ## The constructor's gap -/

theorem binary_exponent_eq : ∀ (e fuel q : Nat), 2 ^ e ≤ q → q < 2 ^ (e + 1) → e < fuel →
    binary_exponent fuel q = e := by
  intro e
  induction e with
  | zero =>
    intro fuel q h1 h2 hf
    obtain ⟨f, rfl⟩ : ∃ f, fuel = f + 1 := ⟨fuel - 1, by omega⟩
    have : q < 2 := by simpa using h2
    simp [binary_exponent, this]
  | succ e ih =>
    intro fuel q h1 h2 hf
    obtain ⟨f, rfl⟩ : ∃ f, fuel = f + 1 := ⟨fuel - 1, by omega⟩
    have hp : 0 < 2 ^ e := Nat.two_pow_pos e
    rw [Nat.pow_succ] at h1 h2
    have hq : ¬ q < 2 := by omega
    rw [binary_exponent, if_neg hq, ih f (q / 2) (by omega) (by rw [Nat.pow_succ]; omega) (by omega)]

theorem to_float32_of_exponent (n d e : Nat) (he : e ≤ 23) (hd : 0 < d)
    (h1 : 2 ^ e * d ≤ n) (h2 : n < 2 ^ (e + 1) * d) :
    to_float32 n d = (round_half_even (n * 2 ^ (23 - e)) d, 2 ^ (23 - e)) := by
  have hq1 : 2 ^ e ≤ n / d := (Nat.le_div_iff_mul_le hd).mpr h1
  have hq2 : n / d < 2 ^ (e + 1) := (Nat.div_lt_iff_lt_mul hd).mpr h2
  have hf : e < n / d := lt_of_lt_of_le (Nat.lt_two_pow e) hq1
  unfold to_float32
  simp only [binary_exponent_eq e (n / d) (n / d) hq1 hq2 hf, he, if_true]

theorem gap_with_exponent_sound (e b g : Nat) (h : gap_with_exponent e b = some g) :
    float_gap b = g := by
  cases b with
  | zero => simp [gap_with_exponent] at h
  | succ b' =>
    simp only [gap_with_exponent] at h
    cases hc : (Nat.ble e 20 && Nat.ble (2 ^ e * (b' + 1)) 1000000
        && Nat.blt 1000000 (2 ^ (e + 1) * (b' + 1))) with
    | false => rw [hc] at h; simp at h
    | true =>
      rw [hc] at h
      simp only [cond_true] at h
      simp only [Bool.and_eq_true, Nat.ble_eq, Nat.blt_eq] at hc
      obtain ⟨⟨he, h1⟩, h2⟩ := hc
      have hf1 := to_float32_of_exponent 1000000 (b' + 1) e (by omega) (by omega) h1 h2
      have hp : 0 < 2 ^ (23 - e) := Nat.two_pow_pos _
      cases ht : 11 * round_half_even (1000000 * 2 ^ (23 - e)) (b' + 1) with
      | zero => rw [ht] at h; simp at h
      | succ t' =>
        rw [ht] at h
        simp only at h
        cases hA : (Nat.ble (2 ^ (e + 3) * 2 ^ (23 - e)) (t' + 1)
            && Nat.blt (t' + 1) (2 ^ (e + 4) * 2 ^ (23 - e))) with
        | true =>
          rw [hA] at h
          simp only [cond_true, Option.some.injEq] at h
          simp only [Bool.and_eq_true, Nat.ble_eq, Nat.blt_eq] at hA
          have hf2 := to_float32_of_exponent (t' + 1) (2 ^ (23 - e)) (e + 3) (by omega) hp
            hA.1 hA.2
          have e3 : 23 - (e + 3) = 20 - e := by omega
          rw [e3] at hf2
          unfold float_gap
          simp only [hf1, ht, hf2]
          exact h
        | false =>
          rw [hA] at h
          simp only [cond_false] at h
          cases hB : (Nat.ble (2 ^ (e + 4) * 2 ^ (23 - e)) (t' + 1)
              && Nat.blt (t' + 1) (2 ^ (e + 5) * 2 ^ (23 - e)) && Nat.ble e 19) with
          | false => rw [hB] at h; simp at h
          | true =>
            rw [hB] at h
            simp only [cond_true, Option.some.injEq] at h
            simp only [Bool.and_eq_true, Nat.ble_eq, Nat.blt_eq] at hB
            obtain ⟨⟨hB1, hB2⟩, he19⟩ := hB
            have hf2 := to_float32_of_exponent (t' + 1) (2 ^ (23 - e)) (e + 4) (by omega) hp
              hB1 hB2
            have e4 : 23 - (e + 4) = 19 - e := by omega
            rw [e4] at hf2
            unfold float_gap
            simp only [hf1, ht, hf2]
            exact h

theorem gaps_agree_sound (e lo : Nat) : ∀ (n : Nat), gaps_agree e lo n = true →
    ∀ b, lo ≤ b → b < lo + n →
      float_gap b + (if b = 960 ∨ b = 4800 ∨ b = 10560 then 1 else 0) = rounded_gap b := by
  intro n
  induction n with
  | zero => intro _ b h1 h2; omega
  | succ n ih =>
    intro h b h1 h2
    simp only [gaps_agree, Bool.and_eq_true] at h
    by_cases hb : b = lo + n
    · subst hb
      obtain ⟨h, -⟩ := h
      cases hg : gap_with_exponent e (lo + n) with
      | none => rw [hg] at h; simp at h
      | some g =>
        rw [hg] at h
        simp only [Nat.beq_eq] at h
        rw [gap_with_exponent_sound e (lo + n) g hg, ← h]
        congr 1
        by_cases hx : lo + n = 960 ∨ lo + n = 4800 ∨ lo + n = 10560
        · rw [if_pos hx]
          rcases hx with hx | hx | hx <;> simp [hx]
        · rw [if_neg hx]
          have h960 : Nat.beq (lo + n) 960 = false := by
            cases hq : Nat.beq (lo + n) 960 with
            | false => rfl
            | true => exact absurd (Or.inl (Nat.eq_of_beq_eq_true hq)) hx
          have h4800 : Nat.beq (lo + n) 4800 = false := by
            cases hq : Nat.beq (lo + n) 4800 with
            | false => rfl
            | true => exact absurd (Or.inr (Or.inl (Nat.eq_of_beq_eq_true hq))) hx
          have h10560 : Nat.beq (lo + n) 10560 = false := by
            cases hq : Nat.beq (lo + n) 10560 with
            | false => rfl
            | true => exact absurd (Or.inr (Or.inr (Nat.eq_of_beq_eq_true hq))) hx
          simp [h960, h4800, h10560]
    · exact ih h.2 b h1 (by omega)

theorem gaps_agree_252_488 : gaps_agree 11 252 237 = true := by decide!

theorem gaps_agree_489_976 : gaps_agree 10 489 488 = true := by decide!

theorem gaps_agree_977_1953 : gaps_agree 9 977 977 = true := by decide!

theorem gaps_agree_1954_3906 : gaps_agree 8 1954 1953 = true := by decide!

theorem gaps_agree_3907_7812 : gaps_agree 7 3907 3906 = true := by decide!

theorem gaps_agree_7813_15625 : gaps_agree 6 7813 7813 = true := by decide!

theorem gaps_agree_15626_19200 : gaps_agree 5 15626 3575 = true := by decide!

theorem float_gap_eq (b : Nat) (h1 : 252 ≤ b) (h2 : b ≤ 19200) :
    float_gap b + (if b = 960 ∨ b = 4800 ∨ b = 10560 then 1 else 0) = rounded_gap b := by
  by_cases c1 : b < 489
  · exact gaps_agree_sound 11 252 237 gaps_agree_252_488 b h1 (by omega)
  by_cases c2 : b < 977
  · exact gaps_agree_sound 10 489 488 gaps_agree_489_976 b (by omega) (by omega)
  by_cases c3 : b < 1954
  · exact gaps_agree_sound 9 977 977 gaps_agree_977_1953 b (by omega) (by omega)
  by_cases c4 : b < 3907
  · exact gaps_agree_sound 8 1954 1953 gaps_agree_1954_3906 b (by omega) (by omega)
  by_cases c5 : b < 7813
  · exact gaps_agree_sound 7 3907 3906 gaps_agree_3907_7812 b (by omega) (by omega)
  by_cases c6 : b < 15626
  · exact gaps_agree_sound 6 7813 7813 gaps_agree_7813_15625 b (by omega) (by omega)
  · exact gaps_agree_sound 5 15626 3575 gaps_agree_15626_19200 b (by omega) (by omega)

/-- C10 (amended): for every baud rate `b` with `252 ≤ b ≤ 19200` the constructor sets
the gap to `round(1.5 * 11 * 1000000 / b)` microseconds, except that the single-precision
arithmetic makes it one less at `b = 960`, `4800` and `10560`; for every `b > 19200` it
sets the gap to `MIN_TIMEOUT_BETWEEN_BYTES_IN_US`, independent of `b`. -/
theorem constructor_gap (MIN_TIMEOUT_BETWEEN_BYTES_IN_US b : Nat) :
    (252 ≤ b → b ≤ 19200 →
        constructor_max_time_between_bytes_in_us MIN_TIMEOUT_BETWEEN_BYTES_IN_US b
          = rounded_gap b - (if b = 960 ∨ b = 4800 ∨ b = 10560 then 1 else 0))
    ∧ (19200 < b →
        constructor_max_time_between_bytes_in_us MIN_TIMEOUT_BETWEEN_BYTES_IN_US b
          = MIN_TIMEOUT_BETWEEN_BYTES_IN_US) := by
  constructor
  · intro h1 h2
    have h := float_gap_eq b h1 h2
    unfold constructor_max_time_between_bytes_in_us
    rw [if_pos h2]
    omega
  · intro h
    unfold constructor_max_time_between_bytes_in_us
    rw [if_neg (by omega)]

/-- Witness of C10 (amended): 1719 us at 9600 baud, 859 us at 19200 baud, 3437 us at
4800 baud, and the constant above 19200 baud. -/
theorem constructor_gap_witness :
    constructor_max_time_between_bytes_in_us 1500 9600 = 1719
    ∧ constructor_max_time_between_bytes_in_us 1500 19200 = 859
    ∧ constructor_max_time_between_bytes_in_us 1500 4800 = 3437
    ∧ constructor_max_time_between_bytes_in_us 1500 115200 = 1500 :=
  ⟨(constructor_gap 1500 9600).1 (by decide) (by decide),
   (constructor_gap 1500 19200).1 (by decide) (by decide),
   (constructor_gap 1500 4800).1 (by decide) (by decide),
   (constructor_gap 1500 115200).2 (by decide)⟩

/-- C10 as stated fails at `b = 110`, where `round(1.5 * 11 * 1000000 / 110) = 150000`
does not fit the 16-bit gap, and at `b = 4800`, where the single-precision product falls
just below 3437.5 and rounds to 3437 instead of 3438. -/
theorem constructor_gap_counterexample :
    rounded_gap 110 = 150000
    ∧ constructor_max_time_between_bytes_in_us 1500 110 ≠ 150000
    ∧ rounded_gap 4800 = 3438
    ∧ constructor_max_time_between_bytes_in_us 1500 4800 = 3437 := by
  refine ⟨by decide, by decide, by decide, by decide⟩

/-! ## Function codes the splitter does not handle -/

/-- C13: equal address and equal function code other than 3, 4 and 6: the splitter
returns none, whatever the payloads are. -/
theorem split_other_function (rq rs : ModbusFrame)
    (ha : rq.address = rs.address) (hf : rq.function = rs.function)
    (hn : rq.function.val ≠ 3 ∧ rq.function.val ≠ 4 ∧ rq.function.val ≠ 6) :
    split_request_and_response_data (some rq) (some rs) = Exec.ok none := by
  have h34 : ¬ (rq.function.val = 3 ∨ rq.function.val = 4) := by omega
  unfold split_request_and_response_data
  rw [match_of_eq rq rs ha hf]
  simp only [Bool.true_eq_false, if_false]
  rw [if_neg h34, if_neg hn.2.2]

/-- Witness of C13: function 16 with payloads that a write would echo. -/
theorem split_other_function_witness :
    split_request_and_response_data (some ⟨1, 16, [0, 5, 0, 1], 4⟩)
      (some ⟨1, 16, [0, 5, 0, 1], 4⟩) = Exec.ok none :=
  split_other_function ⟨1, 16, [0, 5, 0, 1], 4⟩ ⟨1, 16, [0, 5, 0, 1], 4⟩ rfl rfl
    (by decide)

/-! ## The emitting loop: termination, bounds, addresses -/

theorem emit_registers_runs (start rc : Nat) (data : List Byte) (hrc : rc ≤ 255) :
    ∀ (k fuel i : Nat) (acc : List ModbusData), i + k = rc → k < fuel →
      emit_registers start rc data fuel i acc = Exec.out_of_range
        ∨ ∃ l, emit_registers start rc data fuel i acc = Exec.ok (acc ++ l) ∧ l.length = k := by
  intro k
  induction k with
  | zero =>
    intro fuel i acc hik hf
    obtain ⟨f, rfl⟩ : ∃ f, fuel = f + 1 := ⟨fuel - 1, by omega⟩
    have : ¬ i < rc := by omega
    exact Or.inr ⟨[], by simp [emit_registers, this]⟩
  | succ k ih =>
    intro fuel i acc hik hf
    obtain ⟨f, rfl⟩ : ∃ f, fuel = f + 1 := ⟨fuel - 1, by omega⟩
    have hi : i < rc := by omega
    have hw : (i + 1) % 256 = i + 1 := by omega
    rw [emit_registers, if_pos hi]
    cases h1 : data[i * 2 + 1]? with
    | none => exact Or.inl rfl
    | some vh =>
      cases h2 : data[i * 2 + 2]? with
      | none => exact Or.inl rfl
      | some vl =>
        simp only [hw]
        rcases ih f (i + 1) (acc ++ [⟨(start + i) % 65536, (vh.val <<< 8 ||| vl.val) % 65536⟩])
          (by omega) (by omega) with h | ⟨l, h, hl⟩
        · exact Or.inl h
        · refine Or.inr ⟨⟨(start + i) % 65536, (vh.val <<< 8 ||| vl.val) % 65536⟩ :: l, ?_,
            by simp [hl]⟩
          rw [h]; simp


theorem emit_registers_not_out_of_fuel (start rc : Nat) (data : List Byte) (hrc : rc ≤ 255)
    (fuel : Nat) (hf : rc < fuel) :
    emit_registers start rc data fuel 0 [] ≠ Exec.out_of_fuel := by
  rcases emit_registers_runs start rc data hrc rc fuel 0 [] (by omega) hf with h | ⟨l, h, -⟩
  · rw [h]; exact fun h => by cases h
  · rw [h]; exact fun h => by cases h

theorem handle_function_3_and_4_not_out_of_fuel (rq rs : ModbusFrame) :
    handle_function_3_and_4 rq rs ≠ Exec.out_of_fuel := by
  unfold handle_function_3_and_4
  split
  · exact fun h => by cases h
  · split
    · rename_i sh sl nh nl _ _ _ _
      simp only [shl8_or_mod]
      split
      · exact fun h => by cases h
      · split
        · exact fun h => by cases h
        · rename_i bc _
          split
          · exact fun h => by cases h
          · rename_i hbc
            have hb := bc.isLt
            have hrc : nh.val * 256 + nl.val ≤ 255 := by
              have : bc.val = (nh.val * 256 + nl.val) * 2 := by
                by_contra hne; exact hbc hne
              omega
            have := emit_registers_not_out_of_fuel (sh.val * 256 + sl.val)
              (nh.val * 256 + nl.val) rs.data hrc 257 (by omega)
            split
            · exact fun h => by cases h
            · exact fun h => by cases h
            · rename_i heq
              exact absurd heq this
    · exact fun h => by cases h

/-- C15: `handle_function_3_and_4` ends on every input.  Whenever its emitting loop is
reached (request length 4, response length the expected one, response byte count equal
to `register_count * 2`), the register count is at most 127, so the 8-bit counter does
not wrap: `register_count + 1` evaluations of the loop condition suffice, and a loop
that ends has emitted exactly `register_count` observations; it does end so whenever
the response holds as many bytes as its recorded length. -/
theorem handle_function_3_and_4_terminates (rq rs : ModbusFrame) :
    handle_function_3_and_4 rq rs ≠ Exec.out_of_fuel
    ∧ ∀ (sh sl nh nl bc : Byte) (more rest : List Byte),
        rq.data_length = 4 → rq.data = sh :: sl :: nh :: nl :: more →
        rs.data_length = ((nh.val * 256 + nl.val) * 2 + 1) % 65536 →
        rs.data = bc :: rest → bc.val = (nh.val * 256 + nl.val) * 2 →
        nh.val * 256 + nl.val ≤ 127
        ∧ ∀ fuel, nh.val * 256 + nl.val < fuel →
            (emit_registers (sh.val * 256 + sl.val) (nh.val * 256 + nl.val) rs.data fuel 0 []
                = Exec.out_of_range
              ∨ ∃ obs, emit_registers (sh.val * 256 + sl.val) (nh.val * 256 + nl.val) rs.data
                    fuel 0 [] = Exec.ok obs
                  ∧ obs.length = nh.val * 256 + nl.val)
            ∧ (rs.data_length = rs.data.length →
                ∃ obs, emit_registers (sh.val * 256 + sl.val) (nh.val * 256 + nl.val) rs.data
                    fuel 0 [] = Exec.ok obs
                  ∧ obs.length = nh.val * 256 + nl.val) := by
  refine ⟨handle_function_3_and_4_not_out_of_fuel rq rs, ?_⟩
  intro sh sl nh nl bc more rest _ _ hrs _ hbc
  have hb := bc.isLt
  refine ⟨by omega, ?_⟩
  intro fuel hf
  constructor
  · rcases emit_registers_runs (sh.val * 256 + sl.val) (nh.val * 256 + nl.val) rs.data
      (by omega) (nh.val * 256 + nl.val) fuel 0 [] (by omega) hf with h | ⟨l, h, hl⟩
    · exact Or.inl h
    · exact Or.inr ⟨l, by simpa using h, hl⟩
  · intro hwf
    rw [emit_registers_spec (sh.val * 256 + sl.val) (nh.val * 256 + nl.val) rs.data
      (by omega) (by omega) (nh.val * 256 + nl.val) fuel 0 [] (by omega) hf]
    exact ⟨_, rfl, by simp⟩

/-- Witness of C15: two registers; the loop is reached, three evaluations of its
condition suffice and two observations are emitted. -/
theorem handle_function_3_and_4_terminates_witness :
    (2 : Nat) ≤ 127
    ∧ ∃ obs, emit_registers 0 2 [4, 0, 1, 0, 2] 3 0 [] = Exec.ok obs ∧ obs.length = 2 :=
  ⟨((handle_function_3_and_4_terminates ⟨1, 3, [0, 0, 0, 2], 4⟩ ⟨1, 3, [4, 0, 1, 0, 2], 5⟩).2
      0 0 0 2 4 [] [0, 1, 0, 2] rfl rfl rfl rfl rfl).1,
   (((handle_function_3_and_4_terminates ⟨1, 3, [0, 0, 0, 2], 4⟩ ⟨1, 3, [4, 0, 1, 0, 2], 5⟩).2
      0 0 0 2 4 [] [0, 1, 0, 2] rfl rfl rfl rfl rfl).2 3 (by decide)).2 rfl⟩

theorem echo_loop_in_range (rq rs : List Byte) :
    ∀ (n i : Nat), i + n ≤ rq.length → i + n ≤ rs.length →
      ∃ b, echo_loop rq rs i n = Exec.ok b := by
  intro n
  induction n with
  | zero => intro i _ _; exact ⟨true, rfl⟩
  | succ n ih =>
    intro i hq hs
    have hiq : i < rq.length := by omega
    have his : i < rs.length := by omega
    rw [echo_loop]
    simp only [List.getElem?_eq_getElem hiq, List.getElem?_eq_getElem his]
    split
    · exact ⟨false, rfl⟩
    · exact ih (i + 1) (by omega) (by omega)

theorem handle_function_6_in_range (rq rs : ModbusFrame)
    (hrql : rq.data_length = rq.data.length) (hrsl : rs.data_length = rs.data.length) :
    handle_function_6 rq rs ≠ Exec.out_of_range := by
  unfold handle_function_6
  split
  · exact fun h => by cases h
  · rename_i hl
    rw [hrql, hrsl] at hl
    have hq4 : rq.data.length = 4 := by omega
    have hs4 : rs.data.length = 4 := by omega
    obtain ⟨b, hb⟩ := echo_loop_in_range rq.data rs.data 4 0 (by omega) (by omega)
    obtain ⟨a0, a1, a2, a3, hq⟩ := list_of_length_four rq.data hq4
    rw [hb]
    cases b with
    | false => exact fun h => by cases h
    | true =>
      simp only [hq, List.getElem?_cons_zero, List.getElem?_cons_succ]
      exact fun h => by cases h

theorem handle_function_3_and_4_in_range (rq rs : ModbusFrame)
    (hrql : rq.data_length = rq.data.length) (hrsl : rs.data_length = rs.data.length) :
    handle_function_3_and_4 rq rs ≠ Exec.out_of_range := by
  by_cases h : rq.data.length = 4 ∧ rs.data.length = register_count_of rq * 2 + 1
      ∧ (rs.data.getD 0 0).val = register_count_of rq * 2
  · obtain ⟨h4, hl, hb⟩ := h
    obtain ⟨a, b, c, d, hq⟩ := list_of_length_four rq.data h4
    have hrc : register_count_of rq = c.val * 256 + d.val := by
      simp [register_count_of, hq]
    rw [hrc] at hl hb
    rw [handle_function_3_and_4_accepts rq rs a b c d hq (by rw [hrql, h4]) (by omega) hrsl
      (by omega)]
    exact fun h => by cases h
  · rw [handle_function_3_and_4_rejects rq rs hrql hrsl h]
    exact fun h => by cases h

/-- C16: when the recorded payload length of every frame is the number of payload bytes
it holds, no read of `split_request_and_response_data` falls outside a payload.  In
particular, where the function 3/4 handler emits, the request has exactly the 4 bytes
at indices 0 to 3, the response has a byte at index 0, and the indices `2 i + 1` and
`2 i + 2` are inside the response for every `i` below the register count. -/
theorem split_reads_in_range (request response : Option ModbusFrame)
    (hq : ∀ rq, request = some rq → rq.data_length = rq.data.length)
    (hs : ∀ rs, response = some rs → rs.data_length = rs.data.length) :
    split_request_and_response_data request response ≠ Exec.out_of_range
    ∧ ∀ rq rs obs, request = some rq → response = some rs →
        handle_function_3_and_4 rq rs = Exec.ok (some obs) →
        rq.data.length = 4 ∧ 0 < rs.data.length
          ∧ ∀ i, i < register_count_of rq →
              2 * i + 1 < rs.data.length ∧ 2 * i + 2 < rs.data.length := by
  constructor
  · unfold split_request_and_response_data
    split
    · exact fun h => by cases h
    · split
      · rename_i rq rs _
        split
        · exact handle_function_3_and_4_in_range rq rs (hq rq rfl) (hs rs rfl)
        · split
          · exact handle_function_6_in_range rq rs (hq rq rfl) (hs rs rfl)
          · exact fun h => by cases h
      · exact fun h => by cases h
  · intro rq rs obs h1 h2 hobs
    have hc : rq.data.length = 4 ∧ rs.data.length = register_count_of rq * 2 + 1
        ∧ (rs.data.getD 0 0).val = register_count_of rq * 2 := by
      by_contra hc
      rw [handle_function_3_and_4_rejects rq rs (hq rq h1) (hs rs h2) hc] at hobs
      cases hobs
    refine ⟨hc.1, by omega, ?_⟩
    intro i hi
    omega

/-- Witness of C16: the two-register exchange; nothing is read out of range and the
indices 1 to 4 read by the loop are inside the 5-byte response. -/
theorem split_reads_in_range_witness :
    split_request_and_response_data (some ⟨1, 3, [0, 0, 0, 2], 4⟩)
        (some ⟨1, 3, [4, 0, 1, 0, 2], 5⟩) ≠ Exec.out_of_range
    ∧ (2 * 1 + 1 < 5 ∧ 2 * 1 + 2 < 5) :=
  ⟨(split_reads_in_range (some ⟨1, 3, [0, 0, 0, 2], 4⟩) (some ⟨1, 3, [4, 0, 1, 0, 2], 5⟩)
      (by intro rq h; cases h; rfl) (by intro rs h; cases h; rfl)).1,
   ((split_reads_in_range (some ⟨1, 3, [0, 0, 0, 2], 4⟩) (some ⟨1, 3, [4, 0, 1, 0, 2], 5⟩)
      (by intro rq h; cases h; rfl) (by intro rs h; cases h; rfl)).2
      ⟨1, 3, [0, 0, 0, 2], 4⟩ ⟨1, 3, [4, 0, 1, 0, 2], 5⟩ [⟨0, 1⟩, ⟨1, 2⟩] rfl rfl
      (by decide)).2.2 1 (by decide)⟩

/-- C17: in the function 3/4 decoder the observation address is 16-bit: for every
accepted pair (recorded lengths those of the payloads) the addresses of the observations
are `(start_address + i) mod 65536` for `i = 0 .. register_count - 1`, so a block that
crosses the top of the address space wraps and is not rejected. -/
theorem split_function_3_and_4_addresses (rq rs : ModbusFrame) (obs : List ModbusData)
    (ha : rq.address = rs.address) (hf : rq.function = rs.function)
    (h34 : rq.function.val = 3 ∨ rq.function.val = 4)
    (hrql : rq.data_length = rq.data.length) (hrsl : rs.data_length = rs.data.length)
    (hobs : split_request_and_response_data (some rq) (some rs) = Exec.ok (some obs)) :
    obs.map ModbusData.address
      = (List.range (register_count_of rq)).map (fun i =>
          ((rq.data.getD 0 0).val * 256 + (rq.data.getD 1 0).val + i) % 65536) := by
  rw [split_eq_handle_function_3_and_4 rq rs ha hf h34] at hobs
  have hc : rq.data.length = 4 ∧ rs.data.length = register_count_of rq * 2 + 1
      ∧ (rs.data.getD 0 0).val = register_count_of rq * 2 := by
    by_contra hc
    rw [handle_function_3_and_4_rejects rq rs hrql hrsl hc] at hobs
    cases hobs
  obtain ⟨h4, hl, hb⟩ := hc
  obtain ⟨a, b, c, d, hq⟩ := list_of_length_four rq.data h4
  have hrc : register_count_of rq = c.val * 256 + d.val := by
    simp [register_count_of, hq]
  rw [hrc] at hl hb
  rw [handle_function_3_and_4_accepts rq rs a b c d hq (by rw [hrql, h4]) (by omega) hrsl
    (by omega)] at hobs
  simp only [Exec.ok.injEq, Option.some.injEq] at hobs
  rw [← hobs, hrc, hq]
  simp [register_at, Function.comp_def]

/-- Witness of C17: start `0xFFFF` with 2 registers is accepted and yields the addresses
`0xFFFF` and `0x0000`. -/
theorem split_function_3_and_4_addresses_witness :
    split_request_and_response_data (some ⟨1, 3, [0xFF, 0xFF, 0, 2], 4⟩)
        (some ⟨1, 3, [4, 0, 1, 0, 2], 5⟩) = Exec.ok (some [⟨0xFFFF, 1⟩, ⟨0, 2⟩])
    ∧ [(⟨0xFFFF, 1⟩ : ModbusData), ⟨0, 2⟩].map ModbusData.address = [0xFFFF, 0x0000] :=
  ⟨by decide,
   split_function_3_and_4_addresses ⟨1, 3, [0xFF, 0xFF, 0, 2], 4⟩ ⟨1, 3, [4, 0, 1, 0, 2], 5⟩
    [⟨0xFFFF, 1⟩, ⟨0, 2⟩] rfl rfl (Or.inl rfl) rfl rfl (by decide)⟩

/-! ## detect_response on a complete frame followed by anything -/

theorem detect_response_unsupported_full (MAX G L c : Nat) (address function : Byte)
    (ta tf : Nat) (tail : List (Nat × Byte))
    (h14 : ¬ (1 ≤ function.val ∧ function.val ≤ 4))
    (hw : ¬ (function.val = 5 ∨ function.val = 6 ∨ function.val = 15 ∨ function.val = 16))
    (htime : delivered_in_time MAX G c [(ta, address), (tf, function)] = true) :
    detect_response MAX ⟨G, L, c, (ta, address) :: (tf, function) :: tail⟩
      = (none, ⟨G, time_after (response_start c ta) [(ta, address), (tf, function)],
          time_after (response_start c ta) [(ta, address), (tf, function)], tail⟩) := by
  simp only [delivered_in_time, arrives_in_time, Bool.and_eq_true, decide_eq_true_eq,
    and_true] at htime
  obtain ⟨h0, h1, h2⟩ := htime
  unfold detect_response
  simp only
  rw [wait_for_response_start MAX G L c ta address _ h0]
  simp only [esp_timer_get_time]
  rw [read_next_byte_ok G _ _ ta address _ (Or.inr h1)]
  simp only
  rw [read_next_byte_ok G _ _ tf function _ (Or.inr h2)]
  simp only
  rw [if_neg h14, if_neg hw]
  simp only [time_after]

theorem list_split_last_two {α : Type} (l : List α) (n : Nat) (h : l.length = n + 2) :
    ∃ init x y, l = init ++ [x, y] ∧ init.length = n := by
  have hd : (l.drop n).length = 2 := by rw [List.length_drop]; omega
  match hl : l.drop n, hd with
  | [x, y], _ =>
    refine ⟨l.take n, x, y, ?_, by rw [List.length_take]; omega⟩
    rw [← hl, List.take_append_drop]

theorem detect_response_complete (MAX G L c : Nat) (wire rest : List (Nat × Byte))
    (htime : delivered_in_time MAX G c wire = true)
    (hlen : wire.length = bytes_needed (wire.map Prod.snd)) :
    detect_response MAX ⟨G, L, c, wire ++ rest⟩
      = (frame_of_wire (wire.map Prod.snd),
          ⟨G, end_of_wire c wire, end_of_wire c wire, rest⟩) := by
  match wire, htime, hlen with
  | [], _, hlen => simp [bytes_needed] at hlen
  | [_], _, hlen => simp [bytes_needed] at hlen
  | (ta, address) :: (tf, function) :: w2, htime, hlen =>
    simp only [List.map_cons, bytes_needed, List.length_cons] at hlen
    simp only [List.map_cons, frame_of_wire, end_of_wire]
    by_cases hf : 1 ≤ function.val ∧ function.val ≤ 4
    · rw [if_pos hf] at hlen
      rw [if_pos hf]
      match w2, htime, hlen with
      | [], _, hlen => simp at hlen
      | (tb, byte_count) :: w3, htime, hlen =>
        simp only [List.map_cons, List.length_cons] at hlen
        obtain ⟨dwire, ⟨tl, crc_lo⟩, ⟨th, crc_hi⟩, rfl, hd⟩ :=
          list_split_last_two w3 byte_count.val (by omega)
        have h := detect_response_read_type_full MAX G L c address function byte_count
          crc_lo crc_hi ta tf tb tl th dwire rest hf hd htime
        simp only [List.cons_append, List.append_assoc, List.nil_append] at h ⊢
        rw [h]
        have hle : byte_count.val ≤ (List.map Prod.snd (dwire ++ [(tl, crc_lo), (th, crc_hi)])).length := by
          simp only [List.length_map, List.length_append, List.length_cons, List.length_nil]
          omega
        simp only [List.map_cons, List.map_append, List.map_nil, List.length_append,
          List.length_map, List.length_cons, List.length_nil, hd, Nat.le_add_right, if_true]
        have ht : List.take byte_count.val (List.map Prod.snd dwire ++ [crc_lo, crc_hi])
            = List.map Prod.snd dwire := by
          rw [List.take_append_of_le_length (by rw [List.length_map, hd])]
          rw [List.take_of_length_le (by rw [List.length_map, hd])]
        have hdr : List.drop byte_count.val (List.map Prod.snd dwire ++ [crc_lo, crc_hi])
            = [crc_lo, crc_hi] := by
          rw [List.drop_append_of_le_length (by rw [List.length_map, hd])]
          rw [List.drop_of_length_le (by rw [List.length_map, hd])]
          rfl
        rw [ht, hdr]
        simp only [checked_frame]
    · rw [if_neg hf] at hlen
      rw [if_neg hf]
      by_cases hg : function.val = 5 ∨ function.val = 6 ∨ function.val = 15 ∨ function.val = 16
      · rw [if_pos hg] at hlen
        rw [if_pos hg]
        match w2, htime, hlen with
        | [(t0, p0), (t1, p1), (t2, p2), (t3, p3), (tl, crc_lo), (th, crc_hi)], htime, _ =>
          have h := detect_response_write_type_full MAX G L c address function p0 p1 p2 p3
            crc_lo crc_hi ta tf t0 t1 t2 t3 tl th rest hg htime
          simp only [List.cons_append, List.nil_append] at h ⊢
          rw [h]
          simp [checked_frame]
      · rw [if_neg hg] at hlen
        rw [if_neg hg]
        match w2, htime, hlen with
        | [], htime, _ =>
          exact detect_response_unsupported_full MAX G L c address function ta tf rest hf hg
            htime

/-- C11: a function code outside `{1, 2, 3, 4, 5, 6, 15, 16}`, the address byte and the
function byte delivered without a timeout.  `detect_response` returns nothing as soon as
the function byte is read: the clock is the one at which that byte was read, exactly
those two bytes are gone from the byte source, and what follows them plays no part. -/
theorem detect_response_unsupported (MAX : Nat) (d : ModbusResponseDetector)
    (address function : Byte) (ta tf : Nat) (tail : List (Nat × Byte))
    (hf : function.val ∉ [1, 2, 3, 4, 5, 6, 15, 16])
    (hrx : d.uart_rx = (ta, address) :: (tf, function) :: tail)
    (htime : delivered_in_time MAX d.max_time_between_bytes_in_us_ d.clock
      [(ta, address), (tf, function)] = true) :
    (detect_response MAX d).1 = none
    ∧ (detect_response MAX d).2.uart_rx = tail
    ∧ (detect_response MAX d).2.clock
        = read_time (read_time (response_start d.clock ta) ta) tf := by
  obtain ⟨G, L, c, rx⟩ := d
  simp only at hrx htime
  subst hrx
  simp only [List.mem_cons, List.mem_singleton, List.not_mem_nil, or_false, not_or] at hf
  rw [detect_response_unsupported_full MAX G L c address function ta tf tail (by omega)
    (by omega) htime]
  simp [time_after]

/-- Witness of C11: the exception response code `0x83`; the three bytes after it stay
on the line. -/
theorem detect_response_unsupported_witness :
    (detect_response 500 ⟨1719, 0, 0, [(0, 0x01), (1146, 0x83), (2292, 0x02), (3438, 0xC0),
        (4584, 0xF1)]⟩).1 = none
    ∧ (detect_response 500 ⟨1719, 0, 0, [(0, 0x01), (1146, 0x83), (2292, 0x02), (3438, 0xC0),
        (4584, 0xF1)]⟩).2.uart_rx = [(2292, 0x02), (3438, 0xC0), (4584, 0xF1)]
    ∧ (detect_response 500 ⟨1719, 0, 0, [(0, 0x01), (1146, 0x83), (2292, 0x02), (3438, 0xC0),
        (4584, 0xF1)]⟩).2.clock = 1200 :=
  detect_response_unsupported 500 ⟨1719, 0, 0, [(0, 0x01), (1146, 0x83), (2292, 0x02),
      (3438, 0xC0), (4584, 0xF1)]⟩ 0x01 0x83 0 1146 [(2292, 0x02), (3438, 0xC0), (4584, 0xF1)]
    (by decide) rfl (by decide)

/-! ## No state carried from one detection to the next -/

theorem wait_for_response_last (MAX t0 G : Nat) (rx : List (Nat × Byte)) :
    ∀ (fuel c L L2 : Nat),
      wait_for_response MAX t0 fuel ⟨G, L, c, rx⟩
        = ((wait_for_response MAX t0 fuel ⟨G, L2, c, rx⟩).1,
            { (wait_for_response MAX t0 fuel ⟨G, L2, c, rx⟩).2 with
              time_last_byte_received_ := L }) := by
  intro fuel
  induction fuel with
  | zero => intro c L L2; rfl
  | succ fuel ih =>
    intro c L L2
    have hav : available ⟨G, L, c, rx⟩ = available ⟨G, L2, c, rx⟩ := rfl
    rw [wait_for_response, wait_for_response, hav]
    by_cases h0 : available ⟨G, L2, c, rx⟩ = 0
    · rw [if_pos h0, if_pos h0]
      simp only [esp_rom_delay_us, tick_count_ms]
      by_cases h1 : (c + 50) / 1000 - t0 ≥ MAX
      · rw [if_pos h1, if_pos h1]
      · rw [if_neg h1, if_neg h1]
        exact ih (c + 50) L L2
    · rw [if_neg h0, if_neg h0]

theorem detect_response_last (MAX G c : Nat) (rx : List (Nat × Byte)) (L L2 : Nat) :
    (detect_response MAX ⟨G, L, c, rx⟩).1 = (detect_response MAX ⟨G, L2, c, rx⟩).1
    ∧ (detect_response MAX ⟨G, L, c, rx⟩).2.clock = (detect_response MAX ⟨G, L2, c, rx⟩).2.clock
    ∧ (detect_response MAX ⟨G, L, c, rx⟩).2.uart_rx
        = (detect_response MAX ⟨G, L2, c, rx⟩).2.uart_rx := by
  unfold detect_response
  simp only [tick_count_ms]
  rw [wait_for_response_last MAX (c / 1000) G rx _ c L L2]
  cases hw : wait_for_response MAX (c / 1000) (20 * (MAX + 1)) ⟨G, L2, c, rx⟩ with
  | mk b d0 =>
    obtain ⟨G0, L0, c0, rx0⟩ := d0
    cases b with
    | false => exact ⟨rfl, rfl, rfl⟩
    | true => exact ⟨rfl, rfl, rfl⟩

/-- C12: for a fixed gap, what `detect_response` returns, the clock it leaves and the
bytes it leaves on the line do not depend on `time_last_byte_received_` as an earlier
detection left it.  Hence the same valid frame byte sequence, delivered twice in a row
without a timeout, is detected twice as the same frame. -/
theorem detect_response_no_hidden_state (MAX G : Nat) :
    (∀ (c : Nat) (rx : List (Nat × Byte)) (L L2 : Nat),
        (detect_response MAX ⟨G, L, c, rx⟩).1 = (detect_response MAX ⟨G, L2, c, rx⟩).1
        ∧ (detect_response MAX ⟨G, L, c, rx⟩).2.clock
            = (detect_response MAX ⟨G, L2, c, rx⟩).2.clock
        ∧ (detect_response MAX ⟨G, L, c, rx⟩).2.uart_rx
            = (detect_response MAX ⟨G, L2, c, rx⟩).2.uart_rx)
    ∧ ∀ (L c : Nat) (w1 w2 rest : List (Nat × Byte)) (F : ModbusFrame),
        w1.map Prod.snd = w2.map Prod.snd →
        frame_of_wire (w1.map Prod.snd) = some F →
        w1.length = bytes_needed (w1.map Prod.snd) →
        delivered_in_time MAX G c w1 = true →
        delivered_in_time MAX G (end_of_wire c w1) w2 = true →
        (detect_response MAX ⟨G, L, c, w1 ++ (w2 ++ rest)⟩).1 = some F
        ∧ (detect_response MAX (detect_response MAX ⟨G, L, c, w1 ++ (w2 ++ rest)⟩).2).1
            = some F := by
  refine ⟨fun c rx L L2 => detect_response_last MAX G c rx L L2, ?_⟩
  intro L c w1 w2 rest F hb hF hlen h1 h2
  have hlen2 : w2.length = bytes_needed (w2.map Prod.snd) := by
    rw [← hb, ← hlen]
    have := congrArg List.length hb
    simpa using this.symm
  rw [detect_response_complete MAX G L c w1 (w2 ++ rest) h1 hlen]
  simp only
  rw [detect_response_complete MAX G _ _ w2 rest h2 hlen2, ← hb]
  exact ⟨hF, hF⟩

/-- Witness of C12: `01 03 02 12 34 B5 33` twice on the line, 20 ms apart; both
detections return the same frame. -/
theorem detect_response_no_hidden_state_witness :
    (detect_response 500 ⟨1719, 0, 0, [(0, 0x01), (1146, 0x03), (2292, 0x02), (3438, 0x12),
        (4584, 0x34), (5730, 0xB5), (6876, 0x33), (20000, 0x01), (21146, 0x03), (22292, 0x02),
        (23438, 0x12), (24584, 0x34), (25730, 0xB5), (26876, 0x33)]⟩).1
      = some ⟨0x01, 0x03, [0x02, 0x12, 0x34], 3⟩
    ∧ (detect_response 500 (detect_response 500 ⟨1719, 0, 0, [(0, 0x01), (1146, 0x03),
        (2292, 0x02), (3438, 0x12), (4584, 0x34), (5730, 0xB5), (6876, 0x33), (20000, 0x01),
        (21146, 0x03), (22292, 0x02), (23438, 0x12), (24584, 0x34), (25730, 0xB5),
        (26876, 0x33)]⟩).2).1
      = some ⟨0x01, 0x03, [0x02, 0x12, 0x34], 3⟩ :=
  (detect_response_no_hidden_state 500 1719).2 0 0
    [(0, 0x01), (1146, 0x03), (2292, 0x02), (3438, 0x12), (4584, 0x34), (5730, 0xB5),
      (6876, 0x33)]
    [(20000, 0x01), (21146, 0x03), (22292, 0x02), (23438, 0x12), (24584, 0x34), (25730, 0xB5),
      (26876, 0x33)] [] ⟨0x01, 0x03, [0x02, 0x12, 0x34], 3⟩
    rfl (by decide) (by decide) (by decide) (by decide)

/-! ## What a returned frame has taken from the byte source -/

theorem wait_for_next_byte_line : ∀ (fuel : Nat) (d : ModbusResponseDetector),
    (wait_for_next_byte fuel d).uart_rx = d.uart_rx := by
  intro fuel
  induction fuel with
  | zero => intro d; rfl
  | succ fuel ih =>
    intro d
    rw [wait_for_next_byte]
    split
    · rw [ih]; rfl
    · rfl

theorem read_byte_some (d d2 : ModbusResponseDetector) (b : Byte)
    (h : read_byte d = (some b, d2)) : ∃ t, d.uart_rx = (t, b) :: d2.uart_rx := by
  unfold read_byte at h
  split at h
  · cases h
  · rename_i t b2 rest hrx
    split at h
    · simp only [Prod.mk.injEq, Option.some.injEq] at h
      obtain ⟨rfl, rfl⟩ := h
      exact ⟨t, hrx⟩
    · cases h

theorem read_next_byte_some (d d2 : ModbusResponseDetector) (b : Byte)
    (h : read_next_byte d = (some b, d2)) : ∃ t, d.uart_rx = (t, b) :: d2.uart_rx := by
  unfold read_next_byte at h
  split at h
  · simp only at h
    split at h
    · cases h
    · split at h
      · rename_i b2 d3 hr
        simp only [Prod.mk.injEq, Option.some.injEq] at h
        obtain ⟨rfl, rfl⟩ := h
        obtain ⟨t, ht⟩ := read_byte_some _ _ _ hr
        rw [wait_for_next_byte_line] at ht
        exact ⟨t, ht⟩
      · cases h
  · split at h
    · rename_i b2 d3 hr
      simp only [Prod.mk.injEq, Option.some.injEq] at h
      obtain ⟨rfl, rfl⟩ := h
      obtain ⟨t, ht⟩ := read_byte_some _ _ _ hr
      exact ⟨t, ht⟩
    · cases h

theorem read_data_bytes_some : ∀ (n : Nat) (d d2 : ModbusResponseDetector) (bs : List Byte),
    read_data_bytes n d = (some bs, d2) →
    ∃ w, d.uart_rx = w ++ d2.uart_rx ∧ w.map Prod.snd = bs ∧ w.length = n := by
  intro n
  induction n with
  | zero =>
    intro d d2 bs h
    simp only [read_data_bytes, Prod.mk.injEq, Option.some.injEq] at h
    obtain ⟨rfl, rfl⟩ := h
    exact ⟨[], rfl, rfl, rfl⟩
  | succ n ih =>
    intro d d2 bs h
    rw [read_data_bytes] at h
    split at h
    · cases h
    · rename_i b d3 hr
      split at h
      · cases h
      · rename_i bs2 d4 hrest
        simp only [Prod.mk.injEq, Option.some.injEq] at h
        obtain ⟨rfl, rfl⟩ := h
        obtain ⟨t, ht⟩ := read_next_byte_some _ _ _ hr
        obtain ⟨w, hw, hm, hl⟩ := ih _ _ _ hrest
        refine ⟨(t, b) :: w, ?_, by simp [hm], by simp [hl]⟩
        rw [ht, hw]; rfl

theorem read_crc_and_check_some (address function : Byte) (crc_data data : List Byte)
    (data_length : Nat) (d d2 : ModbusResponseDetector) (F : ModbusFrame)
    (h : read_crc_and_check address function crc_data data data_length d = (some F, d2)) :
    ∃ tl lo th hi, d.uart_rx = (tl, lo) :: (th, hi) :: d2.uart_rx
      ∧ crc16 crc_data = lo.val + 256 * hi.val
      ∧ F = ⟨address, function, data, data_length⟩ := by
  unfold read_crc_and_check at h
  split at h
  · cases h
  · rename_i lo d3 hr1
    split at h
    · cases h
    · rename_i hi d4 hr2
      simp only [or_shl8, Nat.mod_eq_of_lt (crc16_lt crc_data)] at h
      split at h
      · cases h
      · rename_i hcrc
        simp only [Prod.mk.injEq, Option.some.injEq] at h
        obtain ⟨rfl, rfl⟩ := h
        obtain ⟨tl, h1⟩ := read_next_byte_some _ _ _ hr1
        obtain ⟨th, h2⟩ := read_next_byte_some _ _ _ hr2
        refine ⟨tl, lo, th, hi, by rw [h1, h2], ?_, rfl⟩
        by_contra hne
        exact hcrc hne

theorem wait_for_response_line (MAX t0 : Nat) : ∀ (fuel : Nat) (d : ModbusResponseDetector),
    (wait_for_response MAX t0 fuel d).2.uart_rx = d.uart_rx := by
  intro fuel
  induction fuel with
  | zero => intro d; rfl
  | succ fuel ih =>
    intro d
    rw [wait_for_response]
    split
    · simp only
      split
      · rfl
      · rw [ih]; rfl
    · rfl

theorem frame_of_wire_read_type (address function byte_count : Byte) (bytes : List Byte)
    (lo hi : Byte) (hf : 1 ≤ function.val ∧ function.val ≤ 4)
    (hl : bytes.length = byte_count.val)
    (hcrc : crc16 (address :: function :: byte_count :: bytes) = lo.val + 256 * hi.val) :
    frame_of_wire (address :: function :: byte_count :: (bytes ++ [lo, hi]))
      = some ⟨address, function, byte_count :: bytes, byte_count.val + 1⟩ := by
  have ht : List.take byte_count.val (bytes ++ [lo, hi]) = bytes := by
    rw [← hl]; exact List.take_left _ _
  have hd : List.drop byte_count.val (bytes ++ [lo, hi]) = [lo, hi] := by
    rw [← hl]; exact List.drop_left _ _
  have hle : byte_count.val ≤ (bytes ++ [lo, hi]).length := by
    rw [List.length_append, hl]; omega
  simp only [frame_of_wire]
  rw [if_pos hf, if_pos hle, ht, hd]
  simp only [checked_frame]
  rw [if_pos hcrc]

theorem frame_of_wire_write_type (address function : Byte) (bytes : List Byte)
    (lo hi : Byte) (hf : ¬ (1 ≤ function.val ∧ function.val ≤ 4))
    (hw : function.val = 5 ∨ function.val = 6 ∨ function.val = 15 ∨ function.val = 16)
    (hl : bytes.length = 4)
    (hcrc : crc16 (address :: function :: bytes) = lo.val + 256 * hi.val) :
    frame_of_wire (address :: function :: (bytes ++ [lo, hi]))
      = some ⟨address, function, bytes, 4⟩ := by
  have ht : List.take 4 (bytes ++ [lo, hi]) = bytes := by
    rw [← hl]; exact List.take_left _ _
  have hd : List.drop 4 (bytes ++ [lo, hi]) = [lo, hi] := by
    rw [← hl]; exact List.drop_left _ _
  have hle : 4 ≤ (bytes ++ [lo, hi]).length := by
    rw [List.length_append, hl]; simp
  simp only [frame_of_wire]
  rw [if_neg hf, if_pos hw, if_pos hle, ht, hd]
  simp only [checked_frame]
  rw [if_pos hcrc]

theorem detect_response_some (MAX : Nat) (d d2 : ModbusResponseDetector) (F : ModbusFrame)
    (h : detect_response MAX d = (some F, d2)) :
    ∃ w, d.uart_rx = w ++ d2.uart_rx
      ∧ frame_of_wire (w.map Prod.snd) = some F
      ∧ w.length = bytes_needed (w.map Prod.snd)
      ∧ ∃ lo hi : Byte, w.map Prod.snd = F.address :: F.function :: (F.data ++ [lo, hi])
          ∧ crc16 (F.address :: F.function :: F.data) = lo.val + 256 * hi.val := by
  have hline := wait_for_response_line MAX (tick_count_ms d) (20 * (MAX + 1)) d
  unfold detect_response at h
  simp only at h
  split at h
  · cases h
  · rename_i d0 hw
    rw [hw] at hline
    simp only at hline
    split at h
    · cases h
    · rename_i address d1 h1
      obtain ⟨ta, e1⟩ := read_next_byte_some _ _ _ h1
      simp only at e1
      split at h
      · cases h
      · rename_i function d3 h2
        obtain ⟨tf, e2⟩ := read_next_byte_some _ _ _ h2
        split at h
        · rename_i hf
          split at h
          · cases h
          · rename_i byte_count d4 h3
            obtain ⟨tb, e3⟩ := read_next_byte_some _ _ _ h3
            split at h
            · cases h
            · rename_i bytes d5 h4
              obtain ⟨w, e4, hm, hl⟩ := read_data_bytes_some _ _ _ _ h4
              obtain ⟨tl, lo, th, hi, e5, hcrc, hF⟩ := read_crc_and_check_some _ _ _ _ _ _ _ _ h
              have hbl : bytes.length = byte_count.val := by
                rw [← hm, List.length_map, hl]
              refine ⟨(ta, address) :: (tf, function) :: (tb, byte_count)
                :: (w ++ [(tl, lo), (th, hi)]), ?_, ?_, ?_, ?_⟩
              · rw [← hline, e1, e2, e3, e4, e5]; simp
              · simp only [List.map_cons, List.map_append, List.map_nil, hm]
                rw [frame_of_wire_read_type address function byte_count bytes lo hi hf hbl hcrc,
                  hF]
              · simp only [List.map_cons, List.map_append, List.map_nil, hm, bytes_needed]
                rw [if_pos hf]
                simp [hl]
              · subst hF
                exact ⟨lo, hi, by simp [hm], hcrc⟩
        · rename_i hf
          split at h
          · rename_i hwt
            split at h
            · cases h
            · rename_i bytes d5 h4
              obtain ⟨w, e4, hm, hl⟩ := read_data_bytes_some _ _ _ _ h4
              obtain ⟨tl, lo, th, hi, e5, hcrc, hF⟩ := read_crc_and_check_some _ _ _ _ _ _ _ _ h
              have hbl : bytes.length = 4 := by
                rw [← hm, List.length_map, hl]
              refine ⟨(ta, address) :: (tf, function) :: (w ++ [(tl, lo), (th, hi)]),
                ?_, ?_, ?_, ?_⟩
              · rw [← hline, e1, e2, e4, e5]; simp
              · simp only [List.map_cons, List.map_append, List.map_nil, hm]
                rw [frame_of_wire_write_type address function bytes lo hi hf hwt hbl hcrc, hF]
              · simp only [List.map_cons, List.map_append, List.map_nil, hm, bytes_needed]
                rw [if_neg hf, if_pos hwt]
                simp [hl]
              · subst hF
                exact ⟨lo, hi, by simp [hm], hcrc⟩
          · cases h

theorem checked_frame_some (address function : Byte) (crc_data data : List Byte)
    (data_length : Nat) (tl : List Byte) (F : ModbusFrame)
    (h : checked_frame address function crc_data data data_length tl = some F) :
    F = ⟨address, function, data, data_length⟩ := by
  unfold checked_frame at h
  split at h
  · split at h
    · simp only [Option.some.injEq] at h
      exact h.symm
    · cases h
  · cases h

theorem frame_of_wire_layout (x : List Byte) (F : ModbusFrame)
    (h : frame_of_wire x = some F) :
    (1 ≤ F.function.val ∧ F.function.val ≤ 4
        ∧ bytes_needed x = (F.data.headD 0).val + 5)
      ∨ ((F.function.val = 5 ∨ F.function.val = 6 ∨ F.function.val = 15 ∨ F.function.val = 16)
        ∧ bytes_needed x = 8) := by
  match x, h with
  | [], h => cases h
  | [_], h => cases h
  | address :: function :: rest, h =>
    simp only [frame_of_wire] at h
    split at h
    · rename_i hf
      split at h
      · rename_i byte_count rest2
        split at h
        · have hF := checked_frame_some _ _ _ _ _ _ _ h
          subst hF
          left
          refine ⟨hf.1, hf.2, ?_⟩
          simp only [bytes_needed]
          rw [if_pos hf]
          rfl
        · cases h
      · cases h
    · rename_i hf
      split at h
      · rename_i hw
        split at h
        · have hF := checked_frame_some _ _ _ _ _ _ _ h
          subst hF
          right
          refine ⟨hw, ?_⟩
          simp only [bytes_needed]
          rw [if_neg hf, if_pos hw]
        · cases h
      · cases h

theorem bytes_needed_append (x y : List Byte) (F : ModbusFrame)
    (h : frame_of_wire x = some F) : bytes_needed (x ++ y) = bytes_needed x := by
  match x, h with
  | [], h => cases h
  | [_], h => cases h
  | [address, function], h =>
    simp only [frame_of_wire] at h
    split at h
    · cases h
    · split at h
      · simp at h
      · cases h
  | address :: function :: byte_count :: rest, h => rfl

theorem detect_response_prefix_unique (MAX : Nat) (d d2 : ModbusResponseDetector)
    (w1 tail : List (Nat × Byte)) (F F1 : ModbusFrame)
    (hrx : d.uart_rx = w1 ++ tail)
    (hF1 : frame_of_wire (w1.map Prod.snd) = some F1)
    (hl1 : w1.length = bytes_needed (w1.map Prod.snd))
    (h : detect_response MAX d = (some F, d2)) :
    F = F1 ∧ d2.uart_rx = tail := by
  obtain ⟨w, e, hfw, hl, _⟩ := detect_response_some MAX d d2 F h
  have e2 : w ++ d2.uart_rx = w1 ++ tail := by rw [← e, hrx]
  have hb : bytes_needed (w.map Prod.snd) = bytes_needed (w1.map Prod.snd) := by
    rw [← bytes_needed_append (w.map Prod.snd) (d2.uart_rx.map Prod.snd) F hfw,
      ← bytes_needed_append (w1.map Prod.snd) (tail.map Prod.snd) F1 hF1,
      ← List.map_append, ← List.map_append, e2]
  have hlen : w.length = w1.length := by rw [hl, hl1, hb]
  obtain ⟨rfl, rfl⟩ := List.append_inj e2 hlen
  rw [hF1] at hfw
  simp only [Option.some.injEq] at hfw
  exact ⟨hfw.symm, rfl⟩

/-! ## An incomplete frame -/

/-- C14: let `frame_bytes` be a well-formed wire frame: the layout of `detect_response`
finds the frame `F` in it (function in {1, 2, 3, 4, 5, 6, 15, 16}, CRC correct) and it has
exactly the bytes that layout reads. Delivered in time it is accepted: `detect_response`
returns `F`. When the byte source holds only a proper prefix of it (the empty prefix
included) and nothing after, `detect_response` returns nothing, whatever the arrival
times of the prefix and the state of the detector. -/
theorem detect_response_incomplete_frame (frame_bytes : List Byte) (F : ModbusFrame)
    (hF : frame_of_wire frame_bytes = some F)
    (hlen : frame_bytes.length = bytes_needed frame_bytes) :
    (∀ (MAX G L c : Nat) (wire : List (Nat × Byte)), wire.map Prod.snd = frame_bytes →
        delivered_in_time MAX G c wire = true →
        (detect_response MAX ⟨G, L, c, wire⟩).1 = some F)
    ∧ (∀ (MAX : Nat) (d : ModbusResponseDetector) (more : List Byte),
        d.uart_rx.map Prod.snd ++ more = frame_bytes → more ≠ [] →
        (detect_response MAX d).1 = none) := by
  constructor
  · intro MAX G L c wire hw htime
    have hl : wire.length = bytes_needed (wire.map Prod.snd) := by
      rw [hw, ← hlen, ← hw, List.length_map]
    have := detect_response_complete MAX G L c wire [] htime hl
    rw [List.append_nil] at this
    rw [this, hw, hF]
  · intro MAX d more hpre hmore
    cases hdr : detect_response MAX d with
    | mk r d2 =>
      cases r with
      | none => rfl
      | some F2 =>
        exfalso
        obtain ⟨w, e, hfw, hl, _⟩ := detect_response_some MAX d d2 F2 hdr
        have hb : bytes_needed frame_bytes = bytes_needed (w.map Prod.snd) := by
          rw [← hpre, e, List.map_append, List.append_assoc,
            bytes_needed_append _ _ F2 hfw]
        have hlen2 : frame_bytes.length = w.length + d2.uart_rx.length + more.length := by
          rw [← hpre, e]; simp only [List.map_append, List.length_append, List.length_map]
        have : more.length = 0 := by omega
        exact hmore (List.length_eq_zero.mp this)

/-- Witness of C14: the frame 01 03 02 12 34 B5 33 is accepted when delivered in time,
and its first four bytes alone, however they arrive, give nothing. -/
theorem detect_response_incomplete_frame_witness :
    (detect_response 500 ⟨1719, 0, 0, [(0, 0x01), (1146, 0x03), (2292, 0x02), (3438, 0x12),
        (4584, 0x34), (5730, 0xB5), (6876, 0x33)]⟩).1 = some ⟨0x01, 0x03, [0x02, 0x12, 0x34], 3⟩
    ∧ (detect_response 500 ⟨1719, 0, 0, [(0, 0x01), (1146, 0x03), (2292, 0x02),
        (3438, 0x12)]⟩).1 = none
    ∧ (detect_response 500 ⟨1719, 0, 0, []⟩).1 = none :=
  ⟨(detect_response_incomplete_frame [0x01, 0x03, 0x02, 0x12, 0x34, 0xB5, 0x33]
      ⟨0x01, 0x03, [0x02, 0x12, 0x34], 3⟩ (by decide) (by decide)).1 500 1719 0 0
      [(0, 0x01), (1146, 0x03), (2292, 0x02), (3438, 0x12), (4584, 0x34), (5730, 0xB5),
        (6876, 0x33)] (by decide) (by decide),
   (detect_response_incomplete_frame [0x01, 0x03, 0x02, 0x12, 0x34, 0xB5, 0x33]
      ⟨0x01, 0x03, [0x02, 0x12, 0x34], 3⟩ (by decide) (by decide)).2 500
      ⟨1719, 0, 0, [(0, 0x01), (1146, 0x03), (2292, 0x02), (3438, 0x12)]⟩
      [0x34, 0xB5, 0x33] (by decide) (by decide),
   (detect_response_incomplete_frame [0x01, 0x03, 0x02, 0x12, 0x34, 0xB5, 0x33]
      ⟨0x01, 0x03, [0x02, 0x12, 0x34], 3⟩ (by decide) (by decide)).2 500
      ⟨1719, 0, 0, []⟩
      [0x01, 0x03, 0x02, 0x12, 0x34, 0xB5, 0x33] (by decide) (by decide)⟩

/-! ## Frames back to back -/

/-- C18: when `detect_response` returns a frame `F` it has taken from the byte source
exactly the bytes of that frame, address, function, payload and the two CRC bytes, and
left every byte after them: `byte_count + 5` bytes for functions 1 to 4 (the byte count
is the first payload byte), 8 bytes for functions 5, 6, 15 and 16. On a stream that
starts with two well-formed frames back to back, a first call that returns a frame
returns the first one, and a second call that returns a frame returns the second one;
when both are delivered in time the two calls do return them. -/
theorem detect_response_consumes_frame (MAX : Nat) :
    (∀ (d d2 : ModbusResponseDetector) (F : ModbusFrame),
        detect_response MAX d = (some F, d2) →
        ∃ (consumed : List (Nat × Byte)) (lo hi : Byte),
          d.uart_rx = consumed ++ d2.uart_rx
          ∧ consumed.map Prod.snd = F.address :: F.function :: (F.data ++ [lo, hi])
          ∧ crc16 (F.address :: F.function :: F.data) = lo.val + 256 * hi.val
          ∧ ((1 ≤ F.function.val ∧ F.function.val ≤ 4
                ∧ consumed.length = (F.data.headD 0).val + 5)
            ∨ ((F.function.val = 5 ∨ F.function.val = 6 ∨ F.function.val = 15
                  ∨ F.function.val = 16)
                ∧ consumed.length = 8)))
    ∧ (∀ (d d1 d2 : ModbusResponseDetector) (w1 w2 rest : List (Nat × Byte))
        (F1 F2 Fa Fb : ModbusFrame),
        d.uart_rx = w1 ++ w2 ++ rest →
        frame_of_wire (w1.map Prod.snd) = some F1 →
        w1.length = bytes_needed (w1.map Prod.snd) →
        frame_of_wire (w2.map Prod.snd) = some F2 →
        w2.length = bytes_needed (w2.map Prod.snd) →
        detect_response MAX d = (some Fa, d1) →
        detect_response MAX d1 = (some Fb, d2) →
        Fa = F1 ∧ d1.uart_rx = w2 ++ rest ∧ Fb = F2 ∧ d2.uart_rx = rest)
    ∧ (∀ (G L c : Nat) (w1 w2 rest : List (Nat × Byte)) (F1 F2 : ModbusFrame),
        frame_of_wire (w1.map Prod.snd) = some F1 →
        w1.length = bytes_needed (w1.map Prod.snd) →
        frame_of_wire (w2.map Prod.snd) = some F2 →
        w2.length = bytes_needed (w2.map Prod.snd) →
        delivered_in_time MAX G c w1 = true →
        delivered_in_time MAX G (end_of_wire c w1) w2 = true →
        (detect_response MAX ⟨G, L, c, w1 ++ w2 ++ rest⟩).1 = some F1
        ∧ (detect_response MAX (detect_response MAX ⟨G, L, c, w1 ++ w2 ++ rest⟩).2).1
            = some F2
        ∧ (detect_response MAX (detect_response MAX ⟨G, L, c, w1 ++ w2 ++ rest⟩).2).2.uart_rx
            = rest) := by
  refine ⟨?_, ?_, ?_⟩
  · intro d d2 F h
    obtain ⟨w, e, hfw, hl, lo, hi, hb, hcrc⟩ := detect_response_some MAX d d2 F h
    refine ⟨w, lo, hi, e, hb, hcrc, ?_⟩
    rcases frame_of_wire_layout _ F hfw with ⟨h1, h2, h3⟩ | ⟨h1, h2⟩
    · exact Or.inl ⟨h1, h2, by rw [hl, h3]⟩
    · exact Or.inr ⟨h1, by rw [hl, h2]⟩
  · intro d d1 d2 w1 w2 rest F1 F2 Fa Fb hrx hF1 hl1 hF2 hl2 ha hb
    rw [List.append_assoc] at hrx
    obtain ⟨e1, r1⟩ := detect_response_prefix_unique MAX d d1 w1 (w2 ++ rest) Fa F1 hrx hF1 hl1 ha
    obtain ⟨e2, r2⟩ := detect_response_prefix_unique MAX d1 d2 w2 rest Fb F2 r1 hF2 hl2 hb
    exact ⟨e1, r1, e2, r2⟩
  · intro G L c w1 w2 rest F1 F2 hF1 hl1 hF2 hl2 ht1 ht2
    rw [List.append_assoc, detect_response_complete MAX G L c w1 (w2 ++ rest) ht1 hl1]
    simp only
    rw [detect_response_complete MAX G _ _ w2 rest ht2 hl2]
    exact ⟨hF1, hF2, rfl⟩

/-- Witness of C18: the response 01 03 02 12 34 B5 33 followed at once by the write
01 06 00 05 00 64 98 20 and one more byte; the first call returns the read frame, the
second the write frame, and the extra byte is left on the line. -/
theorem detect_response_consumes_frame_witness :
    (detect_response 500 ⟨1719, 0, 0, [(0, 0x01), (1146, 0x03), (2292, 0x02), (3438, 0x12),
        (4584, 0x34), (5730, 0xB5), (6876, 0x33)] ++ [(8022, 0x01), (9168, 0x06),
        (10314, 0x00), (11460, 0x05), (12606, 0x00), (13752, 0x64), (14898, 0x98),
        (16044, 0x20)] ++ [(17190, 0x07)]⟩).1 = some ⟨0x01, 0x03, [0x02, 0x12, 0x34], 3⟩
    ∧ (detect_response 500 (detect_response 500 ⟨1719, 0, 0, [(0, 0x01), (1146, 0x03),
        (2292, 0x02), (3438, 0x12), (4584, 0x34), (5730, 0xB5), (6876, 0x33)]
        ++ [(8022, 0x01), (9168, 0x06), (10314, 0x00), (11460, 0x05), (12606, 0x00),
        (13752, 0x64), (14898, 0x98), (16044, 0x20)] ++ [(17190, 0x07)]⟩).2).1
        = some ⟨0x01, 0x06, [0x00, 0x05, 0x00, 0x64], 4⟩
    ∧ (detect_response 500 (detect_response 500 ⟨1719, 0, 0, [(0, 0x01), (1146, 0x03),
        (2292, 0x02), (3438, 0x12), (4584, 0x34), (5730, 0xB5), (6876, 0x33)]
        ++ [(8022, 0x01), (9168, 0x06), (10314, 0x00), (11460, 0x05), (12606, 0x00),
        (13752, 0x64), (14898, 0x98), (16044, 0x20)] ++ [(17190, 0x07)]⟩).2).2.uart_rx
        = [(17190, 0x07)] :=
  (detect_response_consumes_frame 500).2.2 1719 0 0
    [(0, 0x01), (1146, 0x03), (2292, 0x02), (3438, 0x12), (4584, 0x34), (5730, 0xB5),
      (6876, 0x33)]
    [(8022, 0x01), (9168, 0x06), (10314, 0x00), (11460, 0x05), (12606, 0x00),
      (13752, 0x64), (14898, 0x98), (16044, 0x20)]
    [(17190, 0x07)]
    ⟨0x01, 0x03, [0x02, 0x12, 0x34], 3⟩ ⟨0x01, 0x06, [0x00, 0x05, 0x00, 0x64], 4⟩
    (by decide) (by decide) (by decide) (by decide) (by decide) (by decide)

/-! ## A function 6 exchange, from the wire to the observation -/

theorem split_function_6_echo (address ah al vh vl : Byte) :
    split_request_and_response_data (some ⟨address, 6, [ah, al, vh, vl], 4⟩)
        (some ⟨address, 6, [ah, al, vh, vl], 4⟩)
      = Exec.ok (some [⟨ah.val * 256 + al.val, vh.val * 256 + vl.val⟩]) := by
  rw [split_eq_handle_function_6 ⟨address, 6, [ah, al, vh, vl], 4⟩
    ⟨address, 6, [ah, al, vh, vl], 4⟩ rfl rfl rfl]
  unfold handle_function_6
  simp only [ne_eq, not_true_eq_false, or_self, if_false]
  rw [echo_loop_same [ah, al, vh, vl] 4 0 (by simp)]
  simp [shl8_or_mod]

theorem frame_of_wire_function_6 (address ah al vh vl lo hi : Byte)
    (hcrc : crc16 [address, 6, ah, al, vh, vl] = lo.val + 256 * hi.val) :
    frame_of_wire [address, 6, ah, al, vh, vl, lo, hi]
      = some ⟨address, 6, [ah, al, vh, vl], 4⟩ :=
  frame_of_wire_write_type address 6 [ah, al, vh, vl] lo hi (by decide)
    (Or.inr (Or.inl rfl)) rfl hcrc

/-- C19: a function 6 exchange on the wire: the request bytes address, 0x06, a_hi, a_lo,
v_hi, v_lo, CRC low, CRC high with the CRC correct, then the same 8 bytes as the
response, then anything. Delivered in time, the two detections followed by the split
give exactly one observation, with address `a_hi * 256 + a_lo` and value
`v_hi * 256 + v_lo`; and whatever the arrival times, whenever the two detections each
return a frame the split of the two gives that observation. -/
theorem detect_and_split_function_6 (MAX : Nat) (address ah al vh vl lo hi : Byte)
    (req rsp rest : List (Nat × Byte))
    (hcrc : crc16 [address, 6, ah, al, vh, vl] = lo.val + 256 * hi.val)
    (hreq : req.map Prod.snd = [address, 6, ah, al, vh, vl, lo, hi])
    (hrsp : rsp.map Prod.snd = [address, 6, ah, al, vh, vl, lo, hi]) :
    (∀ (G L c : Nat), delivered_in_time MAX G c req = true →
        delivered_in_time MAX G (end_of_wire c req) rsp = true →
        detect_pair_and_split MAX ⟨G, L, c, req ++ rsp ++ rest⟩
          = Exec.ok (some [⟨ah.val * 256 + al.val, vh.val * 256 + vl.val⟩]))
    ∧ (∀ (d d1 d2 : ModbusResponseDetector) (rq rs : ModbusFrame),
        d.uart_rx = req ++ rsp ++ rest →
        detect_response MAX d = (some rq, d1) →
        detect_response MAX d1 = (some rs, d2) →
        split_request_and_response_data (some rq) (some rs)
          = Exec.ok (some [⟨ah.val * 256 + al.val, vh.val * 256 + vl.val⟩])) := by
  have hF := frame_of_wire_function_6 address ah al vh vl lo hi hcrc
  have hq : frame_of_wire (req.map Prod.snd) = some ⟨address, 6, [ah, al, vh, vl], 4⟩ := by
    rw [hreq, hF]
  have hs : frame_of_wire (rsp.map Prod.snd) = some ⟨address, 6, [ah, al, vh, vl], 4⟩ := by
    rw [hrsp, hF]
  have hql : req.length = bytes_needed (req.map Prod.snd) := by
    rw [← List.length_map req Prod.snd, hreq]; rfl
  have hsl : rsp.length = bytes_needed (rsp.map Prod.snd) := by
    rw [← List.length_map rsp Prod.snd, hrsp]; rfl
  constructor
  · intro G L c h1 h2
    unfold detect_pair_and_split
    simp only
    rw [List.append_assoc, detect_response_complete MAX G L c req (rsp ++ rest) h1 hql]
    simp only
    rw [detect_response_complete MAX G _ _ rsp rest h2 hsl, hq, hs]
    exact split_function_6_echo address ah al vh vl
  · intro d d1 d2 rq rs hrx ha hb
    rw [List.append_assoc] at hrx
    obtain ⟨e1, r1⟩ := detect_response_prefix_unique MAX d d1 req (rsp ++ rest) rq _ hrx hq hql ha
    obtain ⟨e2, r2⟩ := detect_response_prefix_unique MAX d1 d2 rsp rest rs _ r1 hs hsl hb
    rw [e1, e2]
    exact split_function_6_echo address ah al vh vl

/-- Witness of C19: the write 01 06 00 05 00 64 98 20 and its echo, one byte every
1146 us, give the single observation of register 5 with value 100. -/
theorem detect_and_split_function_6_witness :
    detect_pair_and_split 500 ⟨1719, 0, 0, [(0, 0x01), (1146, 0x06), (2292, 0x00),
        (3438, 0x05), (4584, 0x00), (5730, 0x64), (6876, 0x98), (8022, 0x20)]
        ++ [(9168, 0x01), (10314, 0x06), (11460, 0x00), (12606, 0x05), (13752, 0x00),
        (14898, 0x64), (16044, 0x98), (17190, 0x20)] ++ []⟩
      = Exec.ok (some [⟨5, 100⟩]) :=
  (detect_and_split_function_6 500 0x01 0x00 0x05 0x00 0x64 0x98 0x20
    [(0, 0x01), (1146, 0x06), (2292, 0x00), (3438, 0x05), (4584, 0x00), (5730, 0x64),
      (6876, 0x98), (8022, 0x20)]
    [(9168, 0x01), (10314, 0x06), (11460, 0x00), (12606, 0x05), (13752, 0x00),
      (14898, 0x64), (16044, 0x98), (17190, 0x20)]
    [] (by decide) (by decide) (by decide)).1 1719 0 0 (by decide) (by decide)

/-! ## A function 3 or 4 exchange, from the wire to the observations -/

theorem split_read_response (address function sh sl nh nl byte_count : Byte)
    (values : List Byte) (h34 : function.val = 3 ∨ function.val = 4)
    (hbc : byte_count.val = 2 * (nh.val * 256 + nl.val))
    (hlen : values.length = byte_count.val) :
    split_request_and_response_data (some ⟨address, function, [sh, sl, nh, nl], 4⟩)
        (some ⟨address, function, byte_count :: values, byte_count.val + 1⟩)
      = Exec.ok (some ((List.range (nh.val * 256 + nl.val)).map (fun i =>
          { address := (sh.val * 256 + sl.val + i) % 65536,
            value := (values.getD (2 * i) 0).val * 256
              + (values.getD (2 * i + 1) 0).val }))) := by
  rw [split_eq_handle_function_3_and_4 ⟨address, function, [sh, sl, nh, nl], 4⟩
      ⟨address, function, byte_count :: values, byte_count.val + 1⟩ rfl rfl h34,
    handle_function_3_and_4_accepts _ _ sh sl nh nl rfl rfl
      (by simp only [List.length_cons]; omega)
      (by simp only [List.length_cons]; omega)
      (by simp only [List.getD_cons_zero]; exact hbc)]
  congr 2
  apply List.map_congr_left
  intro i _
  have e1 : 1 + 2 * i = 2 * i + 1 := by omega
  have e2 : 2 + 2 * i = (2 * i + 1) + 1 := by omega
  simp only [register_at, e1, e2, List.getD_cons_succ]

theorem split_without_request (response : Option ModbusFrame) :
    split_request_and_response_data none response = Exec.ok none := by
  simp [split_request_and_response_data, address_and_function_match]

theorem split_request_wrong_length (rq : ModbusFrame) (response : Option ModbusFrame)
    (h34 : rq.function.val = 3 ∨ rq.function.val = 4) (hl : rq.data_length ≠ 4) :
    split_request_and_response_data (some rq) response = Exec.ok none := by
  unfold split_request_and_response_data
  split
  · rfl
  · split
    · rename_i rq2 rs heq _
      simp only [Option.some.injEq] at heq
      subst heq
      rw [if_pos h34]
      unfold handle_function_3_and_4
      rw [if_pos hl]
    · rfl

theorem frame_of_wire_read_length (address function byte_count : Byte) (rest : List Byte)
    (F : ModbusFrame) (hf : 1 ≤ function.val ∧ function.val ≤ 4)
    (h : frame_of_wire (address :: function :: byte_count :: rest) = some F) :
    F.function = function ∧ F.data_length = byte_count.val + 1 := by
  simp only [frame_of_wire] at h
  rw [if_pos hf] at h
  split at h
  · have hF := checked_frame_some _ _ _ _ _ _ _ h
    subst hF
    exact ⟨rfl, rfl⟩
  · cases h

theorem detect_response_read_length (MAX : Nat) (d d2 : ModbusResponseDetector)
    (F : ModbusFrame) (address function byte_count : Byte) (more : List Byte)
    (hrx : d.uart_rx.map Prod.snd = address :: function :: byte_count :: more)
    (hf : 1 ≤ function.val ∧ function.val ≤ 4)
    (h : detect_response MAX d = (some F, d2)) :
    F.function = function ∧ F.data_length = byte_count.val + 1 := by
  obtain ⟨w, e, hfw, _, _⟩ := detect_response_some MAX d d2 F h
  have hm : w.map Prod.snd ++ d2.uart_rx.map Prod.snd
      = address :: function :: byte_count :: more := by
    rw [← List.map_append, ← e, hrx]
  match hw : w.map Prod.snd, hfw, hm with
  | [], hfw, _ => cases hfw
  | [_], hfw, _ => cases hfw
  | [x, y], hfw, hm =>
    simp only [List.cons_append, List.nil_append, List.cons.injEq] at hm
    obtain ⟨rfl, rfl, _⟩ := hm
    simp only [frame_of_wire] at hfw
    rw [if_pos hf] at hfw
    cases hfw
  | x :: y :: z :: r, hfw, hm =>
    simp only [List.cons_append, List.cons.injEq] at hm
    obtain ⟨rfl, rfl, rfl, _⟩ := hm
    exact frame_of_wire_read_length _ _ _ r F hf hfw

/-- C8 (amended): a function 3 or 4 exchange as it appears on the wire: request bytes
address, function, `start_hi`, `start_lo`, `n_hi`, `n_lo`, CRC low, CRC high; response
bytes address, function, byte count `2 * n`, the register values, CRC low, CRC high with
the CRC correct.  Write `obs` for the `n` observations `((start + i) mod 65536, value_i)`,
`value_i` the big-endian value of response data bytes `2 i` and `2 i + 1`.
First, the response delivered without a timeout, detected by `detect_response` and passed
to the splitter together with the request frame of payload
`[start_hi, start_lo, n_hi, n_lo]`, gives `obs`.  Second, when `start_hi = 3` and the
request CRC is correct, the request and then the response, both delivered without a
timeout and both detected by `detect_response`, give `obs` through the splitter: read as
a byte count, the third request byte then spans the request's own bytes.  Third, when
`start_hi` is not 3, the two detections followed by the splitter give none on every
stream that starts with the request's first three bytes, whatever the arrival times and
whatever follows. -/
theorem detect_response_then_split (MAX : Nat)
    (address function sh sl nh nl byte_count crc_lo crc_hi : Byte) (values : List Byte)
    (h34 : function.val = 3 ∨ function.val = 4)
    (hbc : byte_count.val = 2 * (nh.val * 256 + nl.val))
    (hlen : values.length = byte_count.val)
    (hcrc : crc16 (address :: function :: byte_count :: values)
      = crc_lo.val + 256 * crc_hi.val) :
    (∀ (G L c : Nat) (rsp tail : List (Nat × Byte)),
        rsp.map Prod.snd
          = address :: function :: byte_count :: (values ++ [crc_lo, crc_hi]) →
        delivered_in_time MAX G c rsp = true →
        split_request_and_response_data (some ⟨address, function, [sh, sl, nh, nl], 4⟩)
            (detect_response MAX ⟨G, L, c, rsp ++ tail⟩).1
          = Exec.ok (some ((List.range (nh.val * 256 + nl.val)).map (fun i =>
              { address := (sh.val * 256 + sl.val + i) % 65536,
                value := (values.getD (2 * i) 0).val * 256
                  + (values.getD (2 * i + 1) 0).val }))))
    ∧ (sh.val = 3 → ∀ (rq_crc_lo rq_crc_hi : Byte),
        crc16 [address, function, sh, sl, nh, nl] = rq_crc_lo.val + 256 * rq_crc_hi.val →
        ∀ (G L c : Nat) (req rsp tail : List (Nat × Byte)),
        req.map Prod.snd = [address, function, sh, sl, nh, nl, rq_crc_lo, rq_crc_hi] →
        rsp.map Prod.snd
          = address :: function :: byte_count :: (values ++ [crc_lo, crc_hi]) →
        delivered_in_time MAX G c req = true →
        delivered_in_time MAX G (end_of_wire c req) rsp = true →
        detect_pair_and_split MAX ⟨G, L, c, req ++ rsp ++ tail⟩
          = Exec.ok (some ((List.range (nh.val * 256 + nl.val)).map (fun i =>
              { address := (sh.val * 256 + sl.val + i) % 65536,
                value := (values.getD (2 * i) 0).val * 256
                  + (values.getD (2 * i + 1) 0).val }))))
    ∧ (sh.val ≠ 3 → ∀ (d : ModbusResponseDetector) (more : List Byte),
        d.uart_rx.map Prod.snd = address :: function :: sh :: more →
        detect_pair_and_split MAX d = Exec.ok none) := by
  have hf : 1 ≤ function.val ∧ function.val ≤ 4 := by omega
  have hrF : frame_of_wire (address :: function :: byte_count :: (values ++ [crc_lo, crc_hi]))
      = some ⟨address, function, byte_count :: values, byte_count.val + 1⟩ :=
    frame_of_wire_read_type address function byte_count values crc_lo crc_hi hf hlen hcrc
  have hrl : ∀ rsp : List (Nat × Byte),
      rsp.map Prod.snd = address :: function :: byte_count :: (values ++ [crc_lo, crc_hi]) →
      rsp.length = bytes_needed (rsp.map Prod.snd) := by
    intro rsp hrsp
    rw [← List.length_map rsp Prod.snd, hrsp]
    simp only [bytes_needed, List.length_cons, List.length_append, List.length_nil]
    rw [if_pos hf]
    omega
  refine ⟨?_, ?_, ?_⟩
  · intro G L c rsp tail hrsp htime
    rw [detect_response_complete MAX G L c rsp tail htime (hrl rsp hrsp), hrsp, hrF]
    exact split_read_response address function sh sl nh nl byte_count values h34 hbc hlen
  · intro hsh rq_crc_lo rq_crc_hi hqcrc G L c req rsp tail hreq hrsp h1 h2
    have hq0 : frame_of_wire [address, function, sh, sl, nh, nl, rq_crc_lo, rq_crc_hi]
        = some ⟨address, function, [sh, sl, nh, nl], sh.val + 1⟩ :=
      frame_of_wire_read_type address function sh [sl, nh, nl] rq_crc_lo rq_crc_hi hf
        (by rw [hsh]; rfl) hqcrc
    have hqF : frame_of_wire (req.map Prod.snd)
        = some ⟨address, function, [sh, sl, nh, nl], 4⟩ := by
      rw [hreq, hq0, hsh]
    have hql : req.length = bytes_needed (req.map Prod.snd) := by
      rw [← List.length_map req Prod.snd, hreq]
      simp only [bytes_needed, List.length_cons, List.length_nil]
      rw [if_pos hf, hsh]
    unfold detect_pair_and_split
    simp only
    rw [List.append_assoc, detect_response_complete MAX G L c req (rsp ++ tail) h1 hql]
    simp only
    rw [detect_response_complete MAX G _ _ rsp tail h2 (hrl rsp hrsp), hqF, hrsp, hrF]
    exact split_read_response address function sh sl nh nl byte_count values h34 hbc hlen
  · intro hsh d more hrx
    unfold detect_pair_and_split
    simp only
    cases hq : detect_response MAX d with
    | mk r d1 =>
      cases r with
      | none => exact split_without_request _
      | some F =>
        obtain ⟨e1, e2⟩ := detect_response_read_length MAX d d1 F address function sh more
          hrx hf hq
        exact split_request_wrong_length F _ (by rw [e1]; exact h34) (by rw [e2]; omega)

/-- Witness of C8 (amended): the response `01 03 02 12 34 B5 33` with the request frame
for start 0, one register, gives the single observation `{0, 0x1234}`; the request
`01 03 03 10 00 01 85 8B` and that response, both detected, give `{0x0310, 0x1234}`; the
request `01 03 00 00 00 01 84 0A` and that response, both detected, give none. -/
theorem detect_response_then_split_witness :
    split_request_and_response_data (some ⟨0x01, 0x03, [0x00, 0x00, 0x00, 0x01], 4⟩)
        (detect_response 500 ⟨1719, 0, 0, [(0, 0x01), (1146, 0x03), (2292, 0x02), (3438, 0x12),
          (4584, 0x34), (5730, 0xB5), (6876, 0x33)] ++ []⟩).1
      = Exec.ok (some [⟨0, 0x1234⟩])
    ∧ detect_pair_and_split 500 ⟨1719, 0, 0, [(0, 0x01), (1146, 0x03), (2292, 0x03),
          (3438, 0x10), (4584, 0x00), (5730, 0x01), (6876, 0x85), (8022, 0x8B)]
          ++ [(20000, 0x01), (21146, 0x03), (22292, 0x02), (23438, 0x12), (24584, 0x34),
          (25730, 0xB5), (26876, 0x33)] ++ []⟩
      = Exec.ok (some [⟨0x0310, 0x1234⟩])
    ∧ detect_pair_and_split 500 ⟨1719, 0, 0, [(0, 0x01), (1146, 0x03), (2292, 0x00),
          (3438, 0x00), (4584, 0x00), (5730, 0x01), (6876, 0x84), (8022, 0x0A),
          (20000, 0x01), (21146, 0x03), (22292, 0x02), (23438, 0x12), (24584, 0x34),
          (25730, 0xB5), (26876, 0x33)]⟩
      = Exec.ok none :=
  ⟨(detect_response_then_split 500 0x01 0x03 0x00 0x00 0x00 0x01 0x02 0xB5 0x33 [0x12, 0x34]
      (Or.inl rfl) rfl rfl (by decide)).1 1719 0 0
      [(0, 0x01), (1146, 0x03), (2292, 0x02), (3438, 0x12), (4584, 0x34), (5730, 0xB5),
        (6876, 0x33)] [] rfl (by decide),
   (detect_response_then_split 500 0x01 0x03 0x03 0x10 0x00 0x01 0x02 0xB5 0x33 [0x12, 0x34]
      (Or.inl rfl) rfl rfl (by decide)).2.1 rfl 0x85 0x8B (by decide) 1719 0 0
      [(0, 0x01), (1146, 0x03), (2292, 0x03), (3438, 0x10), (4584, 0x00), (5730, 0x01),
        (6876, 0x85), (8022, 0x8B)]
      [(20000, 0x01), (21146, 0x03), (22292, 0x02), (23438, 0x12), (24584, 0x34),
        (25730, 0xB5), (26876, 0x33)] [] rfl rfl (by decide) (by decide),
   (detect_response_then_split 500 0x01 0x03 0x00 0x00 0x00 0x01 0x02 0xB5 0x33 [0x12, 0x34]
      (Or.inl rfl) rfl rfl (by decide)).2.2 (by decide)
      ⟨1719, 0, 0, [(0, 0x01), (1146, 0x03), (2292, 0x00), (3438, 0x00), (4584, 0x00),
        (5730, 0x01), (6876, 0x84), (8022, 0x0A), (20000, 0x01), (21146, 0x03),
        (22292, 0x02), (23438, 0x12), (24584, 0x34), (25730, 0xB5), (26876, 0x33)]⟩
      [0x00, 0x00, 0x01, 0x84, 0x0A, 0x01, 0x03, 0x02, 0x12, 0x34, 0xB5, 0x33] rfl⟩

end ModbusSpy
